import Mathlib

/-! Verification of core-js-101, `src/05-objects-tasks.js`.

A shallow embedding of the object helpers (`Rectangle`, `getJSON`, `fromJSON`) and of the CSS
selector builder (`MySuperBaseElementSelector` together with the `cssSelectorBuilder` facade),
followed by the properties established about them.

Conventions of the embedding:

* a JavaScript array of strings is a `List String`, `push` appends at the end;
* a method that mutates `this` and may throw returns an `Outcome`: the builder as the call
  leaves it (mutations made before a `throw` are kept) and the message of the `Error` thrown,
  if any;
* a number with an integer value is given by that integer (`Int`); the product of two numbers is
  the double nearest to the exact product (`roundDouble`), and the two zeros are not told apart;
* the built-ins `JSON.stringify`, `JSON.parse` and `Object.values` follow the language standard
  on the properties of an object; what they do with one property value is a parameter
  (`ValueCodec`), so that the values may be of any kind.
-/

/-! ## Numbers -/

/-- The number of low binary digits that a natural number has beyond 53: the least `e` such
that `m / 2 ^ e < 2 ^ 53` (`fuel` bounds the search and is taken as `m` itself). -/
def excessBits : Nat → Nat → Nat
  | 0, _ => 0
  | fuel + 1, m => if m < 2 ^ 53 then 0 else excessBits fuel (m / 2) + 1

/-- The double nearest to an exact integer, as every arithmetic operation on numbers rounds
its exact result: 53 significant binary digits are kept, a tie goes to the even significand, and
a magnitude beyond the largest double, `(2 ^ 53 - 1) * 2 ^ 971`, gives an infinity, for which
`none` stands. -/
def roundDouble (n : Int) : Option Int :=
  if n.natAbs ≤ 2 ^ 53 then some n
  else
    let e := excessBits n.natAbs n.natAbs
    let q := 2 ^ e
    let low := n.natAbs / q
    let r := n.natAbs % q
    let sig :=
      if 2 * r < q then low
      else if q < 2 * r then low + 1
      else if low % 2 = 0 then low else low + 1
    if e < 971 ∨ (e = 971 ∧ sig < 2 ^ 53) then some (n.sign * (sig * q : Nat)) else none

/-! ## Rectangle -/

/-- The object built by `new Rectangle(width, height)`: its two data fields, numbers with an
integer value. -/
structure Rectangle where
  width : Int
  height : Int
deriving DecidableEq, Repr

namespace Rectangle

/-- The constructor call `new Rectangle(width, height)`: `this.width = width; this.height = height`. -/
def new (width height : Int) : Rectangle :=
  { width := width, height := height }

/-- The method `getArea`: `return this.width * this.height`, the product of two doubles, which is
the double nearest to the exact product (`none` for an infinity). -/
def getArea (self : Rectangle) : Option Int :=
  roundDouble (self.width * self.height)

end Rectangle

/-! ## The selector builder -/

/-- The fields set up by the constructor of `MySuperBaseElementSelector`. -/
structure MySuperBaseElementSelector where
  selector : List String
  elements : List String
  ids : List String
  pseudoElements : List String
  arranging : List String
deriving DecidableEq, Repr

/-- The message of the error thrown on a second element, id or pseudo-element. -/
def duplicateMessage : String :=
  "Element, id and pseudo-element should not occur more then one time inside the selector"

/-- The message of the error thrown on a misplaced selector part. -/
def orderMessage : String :=
  "Selector parts should be arranged in the following order: element, id, class, attribute, pseudo-class, pseudo-element"

/-- What a fragment method leaves behind: the builder after the call and the message of the
error it threw (`none` when it returned `this`). -/
structure Outcome where
  state : MySuperBaseElementSelector
  thrown : Option String
deriving DecidableEq, Repr

namespace MySuperBaseElementSelector

/-- The constructor: every field is the empty array. -/
def new : MySuperBaseElementSelector :=
  { selector := [], elements := [], ids := [], pseudoElements := [], arranging := [] }

/-- The expression `this.arranging[this.arranging.length - 2]` (`none` stands for `undefined`). -/
def secondLast (arranging : List String) : Option String :=
  arranging[arranging.length - 2]?

/-- The method `element(value)`. -/
def element (self : MySuperBaseElementSelector) (value : String) : Outcome :=
  if self.elements.length = 0 then
    let pushed : MySuperBaseElementSelector :=
      { self with
        selector := self.selector ++ [value]
        elements := self.elements ++ [value]
        arranging := self.arranging ++ ["element"] }
    if pushed.arranging.length > 1 ∧ secondLast pushed.arranging ≠ some "element" then
      { state := pushed, thrown := some orderMessage }
    else
      { state := pushed, thrown := none }
  else
    { state := self, thrown := some duplicateMessage }

/-- The method `id(value)`. -/
def id (self : MySuperBaseElementSelector) (value : String) : Outcome :=
  if self.ids.length = 0 then
    let pushed : MySuperBaseElementSelector :=
      { self with
        selector := self.selector ++ ["#" ++ value]
        ids := self.ids ++ ["#" ++ value]
        arranging := self.arranging ++ ["id"] }
    if pushed.arranging.length > 1 ∧ secondLast pushed.arranging ≠ some "element" then
      { state := pushed, thrown := some orderMessage }
    else
      { state := pushed, thrown := none }
  else
    { state := self, thrown := some duplicateMessage }

/-- The method `class(value)` (`class` is a keyword of Lean, hence the underscore). -/
def class_ (self : MySuperBaseElementSelector) (value : String) : Outcome :=
  let pushed : MySuperBaseElementSelector :=
    { self with
      selector := self.selector ++ ["." ++ value]
      arranging := self.arranging ++ ["class"] }
  if pushed.arranging.length > 1
      ∧ secondLast pushed.arranging ≠ some "element"
      ∧ secondLast pushed.arranging ≠ some "id"
      ∧ secondLast pushed.arranging ≠ some "class" then
    { state := pushed, thrown := some orderMessage }
  else
    { state := pushed, thrown := none }

/-- The method `attr(value)`. -/
def attr (self : MySuperBaseElementSelector) (value : String) : Outcome :=
  let pushed : MySuperBaseElementSelector :=
    { self with
      selector := self.selector ++ ["[" ++ value ++ "]"]
      arranging := self.arranging ++ ["attr"] }
  if pushed.arranging.length > 1
      ∧ secondLast pushed.arranging ≠ some "element"
      ∧ secondLast pushed.arranging ≠ some "id"
      ∧ secondLast pushed.arranging ≠ some "class"
      ∧ secondLast pushed.arranging ≠ some "attr" then
    { state := pushed, thrown := some orderMessage }
  else
    { state := pushed, thrown := none }

/-- The method `pseudoClass(value)`. -/
def pseudoClass (self : MySuperBaseElementSelector) (value : String) : Outcome :=
  let pushed : MySuperBaseElementSelector :=
    { self with
      selector := self.selector ++ [":" ++ value]
      arranging := self.arranging ++ ["pseudoClass"] }
  if pushed.arranging.length > 1
      ∧ secondLast pushed.arranging ≠ some "element"
      ∧ secondLast pushed.arranging ≠ some "id"
      ∧ secondLast pushed.arranging ≠ some "class"
      ∧ secondLast pushed.arranging ≠ some "attr"
      ∧ secondLast pushed.arranging ≠ some "pseudoClass" then
    { state := pushed, thrown := some orderMessage }
  else
    { state := pushed, thrown := none }

/-- The method `pseudoElement(value)`. -/
def pseudoElement (self : MySuperBaseElementSelector) (value : String) : Outcome :=
  if self.pseudoElements.length = 0 then
    let pushed : MySuperBaseElementSelector :=
      { self with
        selector := self.selector ++ ["::" ++ value]
        pseudoElements := self.pseudoElements ++ ["::" ++ value]
        arranging := self.arranging ++ ["pseudoElement"] }
    if pushed.arranging.length > 1
        ∧ secondLast pushed.arranging ≠ some "element"
        ∧ secondLast pushed.arranging ≠ some "id"
        ∧ secondLast pushed.arranging ≠ some "class"
        ∧ secondLast pushed.arranging ≠ some "attr"
        ∧ secondLast pushed.arranging ≠ some "pseudoClass" then
      { state := pushed, thrown := some orderMessage }
    else
      { state := pushed, thrown := none }
  else
    { state := self, thrown := some duplicateMessage }

/-- The method `combine(selector1, combinator, selector2)`: it overwrites `this.selector` and
touches no other field. -/
def combine (self selector1 : MySuperBaseElementSelector) (combinator : String)
    (selector2 : MySuperBaseElementSelector) : MySuperBaseElementSelector :=
  { self with selector := selector1.selector ++ [" ", combinator, " "] ++ selector2.selector }

/-- The method `stringify()`: the string `this.selector.join('')` it returns, paired with the
builder as the call leaves it. -/
def stringify (self : MySuperBaseElementSelector) : String × MySuperBaseElementSelector :=
  (String.join self.selector, self)

end MySuperBaseElementSelector

/-! ## Fragment calls as data -/

/-- The six fragment methods of the builder. -/
inductive Kind where
  | element
  | id
  | class_
  | attr
  | pseudoClass
  | pseudoElement
deriving DecidableEq, Repr

/-- One fragment call: the method and its string argument. -/
structure Call where
  kind : Kind
  value : String
deriving DecidableEq, Repr

namespace Kind

/-- The entry a method of this kind pushes on `arranging`. -/
def label : Kind → String
  | element => "element"
  | id => "id"
  | class_ => "class"
  | attr => "attr"
  | pseudoClass => "pseudoClass"
  | pseudoElement => "pseudoElement"

/-- The canonical rank of a kind: element(0) < id(1) < class(2) < attribute(3) <
pseudo-class(4) < pseudo-element(5). -/
def rank : Kind → Nat
  | element => 0
  | id => 1
  | class_ => 2
  | attr => 3
  | pseudoClass => 4
  | pseudoElement => 5

/-- The kinds that may occur once only: element, id and pseudo-element. -/
def single : Kind → Bool
  | element => true
  | id => true
  | pseudoElement => true
  | _ => false

end Kind

namespace Call

/-- The token of a call as the specification words it: `value` for element, `"#"+value` for
id, `"."+value` for class, `"["+value+"]"` for attr, `":"+value` for pseudoClass and
`"::"+value` for pseudoElement. -/
def token (c : Call) : String :=
  match c.kind with
  | .element => c.value
  | .id => "#" ++ c.value
  | .class_ => "." ++ c.value
  | .attr => "[" ++ c.value ++ "]"
  | .pseudoClass => ":" ++ c.value
  | .pseudoElement => "::" ++ c.value

end Call

namespace MySuperBaseElementSelector

/-- Dispatch of a fragment call to the method it names. -/
def call (self : MySuperBaseElementSelector) (c : Call) : Outcome :=
  match c.kind with
  | .element => self.element c.value
  | .id => self.id c.value
  | .class_ => self.class_ c.value
  | .attr => self.attr c.value
  | .pseudoClass => self.pseudoClass c.value
  | .pseudoElement => self.pseudoElement c.value

/-- The builder after the calls were made on it one after the other, a call that throws being
caught by the caller (its mutations stay). -/
def runCalls (self : MySuperBaseElementSelector) : List Call → MySuperBaseElementSelector
  | [] => self
  | c :: cs => runCalls (self.call c).state cs

/-- The error thrown, or not, by each of the calls made on the builder one after the other. -/
def outcomes (self : MySuperBaseElementSelector) : List Call → List (Option String)
  | [] => []
  | c :: cs => (self.call c).thrown :: outcomes (self.call c).state cs

/-- Every one of the calls, made in order on the builder, returns without throwing. -/
def allSucceed (self : MySuperBaseElementSelector) (calls : List Call) : Prop :=
  ∀ o ∈ self.outcomes calls, o = none

instance (self : MySuperBaseElementSelector) (calls : List Call) :
    Decidable (self.allSucceed calls) := by
  unfold allSucceed; infer_instance

end MySuperBaseElementSelector

/-! ## The facade -/

namespace cssSelectorBuilder

/-- The entry `element(value)`: a new builder, `newBuilder.element(value)`, the builder returned
(an error of the method call propagates). -/
def element (value : String) : Outcome :=
  MySuperBaseElementSelector.new.element value

/-- The entry `id(value)`. -/
def id (value : String) : Outcome :=
  MySuperBaseElementSelector.new.id value

/-- The entry `class(value)`. -/
def class_ (value : String) : Outcome :=
  MySuperBaseElementSelector.new.class_ value

/-- The entry `attr(value)`. -/
def attr (value : String) : Outcome :=
  MySuperBaseElementSelector.new.attr value

/-- The entry `pseudoClass(value)`. -/
def pseudoClass (value : String) : Outcome :=
  MySuperBaseElementSelector.new.pseudoClass value

/-- The entry `pseudoElement(value)`. -/
def pseudoElement (value : String) : Outcome :=
  MySuperBaseElementSelector.new.pseudoElement value

/-- The entry `combine(selector1, combinator, selector2)`: a new builder on which `combine` is
called, then returned. -/
def combine (selector1 : MySuperBaseElementSelector) (combinator : String)
    (selector2 : MySuperBaseElementSelector) : MySuperBaseElementSelector :=
  MySuperBaseElementSelector.new.combine selector1 combinator selector2

end cssSelectorBuilder

/-! ## Auxiliary definitions for the statements -/

/-- The builder that holds exactly the fragments of the given calls, in that order: what the
fields are when these calls, and no other, have pushed their fragment. -/
def ofCalls (pre : List Call) : MySuperBaseElementSelector :=
  { selector := pre.map Call.token
    elements := (pre.filter (fun c => c.kind = Kind.element)).map Call.token
    ids := (pre.filter (fun c => c.kind = Kind.id)).map Call.token
    pseudoElements := (pre.filter (fun c => c.kind = Kind.pseudoElement)).map Call.token
    arranging := pre.map (fun c => c.kind.label) }

/-- The kinds that the order test of a method lets through as the kind of the fragment just
before: the labels its condition compares `this.arranging[this.arranging.length - 2]` with. -/
def allowedBefore : Kind → List Kind
  | .element => [.element]
  | .id => [.element]
  | .class_ => [.element, .id, .class_]
  | .attr => [.element, .id, .class_, .attr]
  | .pseudoClass => [.element, .id, .class_, .attr, .pseudoClass]
  | .pseudoElement => [.element, .id, .class_, .attr, .pseudoClass]

/-- Whether a call of kind `k` passes the order test of its method when the fragment before it
(if any) has kind `prev`. -/
def accepts (prev : Option Kind) (k : Kind) : Bool :=
  match prev with
  | none => true
  | some p => decide (p ∈ allowedBefore k)

/-- The calls of a sequence that push their fragment, `seen` being the kinds pushed before: a
call of a once-only kind that was pushed before is dropped, every other call is kept. -/
def keepFrom (seen : List Kind) : List Call → List Call
  | [] => []
  | c :: cs =>
      if c.kind.single = true ∧ c.kind ∈ seen then keepFrom seen cs
      else c :: keepFrom (seen ++ [c.kind]) cs

/-- A sequence of kinds is non-decreasing in the canonical rank order. -/
def nonDecreasing (kinds : List Kind) : Prop :=
  kinds.Pairwise (fun a b => a.rank ≤ b.rank)

instance (kinds : List Kind) : Decidable (nonDecreasing kinds) := by
  unfold nonDecreasing; infer_instance

/-- Each of element, id and pseudo-element occurs at most once in a sequence of kinds. -/
def onceOnly (kinds : List Kind) : Prop :=
  kinds.count Kind.element ≤ 1 ∧ kinds.count Kind.id ≤ 1 ∧ kinds.count Kind.pseudoElement ≤ 1

instance (kinds : List Kind) : Decidable (onceOnly kinds) := by
  unfold onceOnly; infer_instance

/-- The kinds of preceding fragment after which a call of the given kind is refused by the
order rule, as the specification lists them: anything for element, anything other than element
for id, attribute, pseudo-class or pseudo-element for class, pseudo-class or pseudo-element for
attr, pseudo-element for pseudoClass, and none for pseudoElement. -/
def rejectedBefore : Kind → List Kind
  | .element => [.element, .id, .class_, .attr, .pseudoClass, .pseudoElement]
  | .id => [.id, .class_, .attr, .pseudoClass, .pseudoElement]
  | .class_ => [.attr, .pseudoClass, .pseudoElement]
  | .attr => [.pseudoClass, .pseudoElement]
  | .pseudoClass => [.pseudoElement]
  | .pseudoElement => []

/-- The method `stringify()` called `n` times in a row on a builder: the strings returned, in
call order, and the builder as the last call leaves it. -/
def stringifyTimes : Nat → MySuperBaseElementSelector → List String × MySuperBaseElementSelector
  | 0, self => ([], self)
  | n + 1, self =>
      let first := self.stringify
      let rest := stringifyTimes n first.2
      (first.1 :: rest.1, rest.2)

/-- One call made on a builder: a fragment call, or the method `combine` with its three
arguments. -/
inductive Step where
  | fragment (c : Call)
  | combine (selector1 : MySuperBaseElementSelector) (combinator : String)
      (selector2 : MySuperBaseElementSelector)

/-- The builder after the steps were made on it one after the other, a fragment call that throws
being caught by the caller. -/
def runSteps (self : MySuperBaseElementSelector) : List Step → MySuperBaseElementSelector
  | [] => self
  | .fragment c :: rest => runSteps (self.call c).state rest
  | .combine selector1 combinator selector2 :: rest =>
      runSteps (self.combine selector1 combinator selector2) rest

/-- The fragment calls among the steps, in order. -/
def fragmentCalls : List Step → List Call
  | [] => []
  | .fragment c :: rest => c :: fragmentCalls rest
  | .combine _ _ _ :: rest => fragmentCalls rest

/-- Two builders agree on the fields the fragment methods read: `elements`, `ids`,
`pseudoElements` and `arranging`. -/
def sameRecord (s t : MySuperBaseElementSelector) : Prop :=
  s.elements = t.elements ∧ s.ids = t.ids ∧ s.pseudoElements = t.pseudoElements
    ∧ s.arranging = t.arranging

/-! ## JSON helpers

The text of a JSON object is represented by its members, in textual order, each with its key and
the text of its value; white space and escapes are not part of the embedding, and `getJSON` and
`fromJSON` are embedded on objects and on the texts of objects. -/

/-- The text of a JSON object: its members, key and text of the value, in textual order (a key
may occur more than once). -/
abbrev JsonText (J : Type) := List (String × J)

/-- An object: its own enumerable properties, in the order in which they were created, and the
method that a lookup of `toJSON` finds on its prototype chain, if there is one. Such a method is
given as the function from the own properties of `this` to the own properties, in creation
order, of the plain object it returns. (An own property `toJSON` that holds a function is not
covered.) -/
structure JsObject (V : Type) where
  props : List (String × V)
  toJSON : Option (List (String × V) → List (String × V))

/-- What the built-ins do with one value, taken as given: the value `undefined`, the value that
`JSON.parse` builds for the text of a value, and the text that `JSON.stringify` writes for the
value of a property (`none` when it leaves the property out). -/
structure ValueCodec (V J : Type) where
  undefined : V
  parseValue : J → V
  stringifyValue : V → Option J

/-- The values of the examples: `undefined`, `null`, booleans, numbers with an integer value,
the two infinities, strings, and function objects (given by their name). -/
inductive JsValue where
  | undefined
  | null
  | bool (b : Bool)
  | number (n : Int)
  | infinity (negative : Bool)
  | string (s : String)
  | func (name : String)
deriving DecidableEq, Repr

/-- The texts of values of the examples: `null`, a boolean, a number text that denotes an
integer, a string. -/
inductive JsonValue where
  | null
  | bool (b : Bool)
  | number (n : Int)
  | string (s : String)
deriving DecidableEq, Repr

/-- The value that `JSON.parse` builds for a text of the examples: a number text gives the
double nearest to the number it denotes. -/
def JsonValue.toJs : JsonValue → JsValue
  | .null => .null
  | .bool b => .bool b
  | .number n =>
      match roundDouble n with
      | some d => .number d
      | none => .infinity (decide (n < 0))
  | .string s => .string s

/-- What `JSON.stringify` writes for a property value of the examples: nothing (the property is
left out) for `undefined` and for a function, `null` for an infinity, and for a number a text
that denotes it. -/
def JsValue.toJson? : JsValue → Option JsonValue
  | .undefined => none
  | .null => some .null
  | .bool b => some (.bool b)
  | .number n => some (.number n)
  | .infinity _ => some .null
  | .string s => some (.string s)
  | .func _ => none

/-- The built-ins on the values of the examples. -/
def scalars : ValueCodec JsValue JsonValue :=
  { undefined := .undefined, parseValue := JsonValue.toJs, stringifyValue := JsValue.toJson? }

/-- The value of a decimal digit. -/
def digitValue (c : Char) : Option Nat :=
  if c.isDigit then some (c.toNat - 48) else none

/-- The number written by a sequence of decimal digits, read from the left with `acc` as the
value read so far. -/
def decimalValue (acc : Nat) : List Char → Option Nat
  | [] => some acc
  | c :: cs =>
      match digitValue c with
      | none => none
      | some d => decimalValue (10 * acc + d) cs

/-- The array index that a property key denotes, if any: the key is the canonical decimal
writing (no leading zero) of an integer below `2^32 - 1`. -/
def arrayIndex (key : String) : Option Nat :=
  match key.data with
  | [] => none
  | c :: cs =>
      if c = '0' ∧ cs ≠ [] then none
      else
        match decimalValue 0 (c :: cs) with
        | none => none
        | some n => if n < 4294967295 then some n else none

/-- Insertion of an indexed property into a list sorted by index. -/
def insertIndexed {V : Type} (p : Nat × (String × V)) :
    List (Nat × (String × V)) → List (Nat × (String × V))
  | [] => [p]
  | q :: qs => if p.1 ≤ q.1 then p :: q :: qs else q :: insertIndexed p qs

/-- Own properties, given in creation order, put in the order in which the language enumerates
them: the properties whose key is an array index first, by ascending index, then the others in
creation order. -/
def enumerate {V : Type} (props : List (String × V)) : List (String × V) :=
  ((props.filterMap (fun p => (arrayIndex p.1).map (fun i => (i, p)))).foldr
        insertIndexed []).map (fun q => q.2)
    ++ props.filter (fun p => (arrayIndex p.1).isNone)

namespace JsObject

/-- A new object without own properties, whose prototype chain has the given `toJSON`, if any. -/
def create {V : Type} (toJSON : Option (List (String × V) → List (String × V))) : JsObject V :=
  { props := [], toJSON := toJSON }

/-- The definition of an own data property (`CreateDataProperty`, as `JSON.parse` does it for
each member): an existing property keeps its place and takes the value, a new one is created
after the others. -/
def define {V : Type} (obj : JsObject V) (key : String) (value : V) : JsObject V :=
  if obj.props.any (fun p => p.1 = key) then
    { obj with props := obj.props.map (fun p => if p.1 = key then (key, value) else p) }
  else
    { obj with props := obj.props ++ [(key, value)] }

/-- The assignment `obj[key] = value`, as a constructor does it on `this`: it defines the own
property, except for the key `__proto__`, which goes to the setter inherited from
`Object.prototype` and creates no own property. (The change of prototype that this setter makes
when the value is an object or `null` is not covered.) -/
def assign {V : Type} (obj : JsObject V) (key : String) (value : V) : JsObject V :=
  if key = "__proto__" then obj else obj.define key value

/-- The read `obj[key]` of an own property (`none` when there is none). -/
def get {V : Type} (obj : JsObject V) (key : String) : Option V :=
  (obj.props.find? (fun p => p.1 = key)).map (fun p => p.2)

end JsObject

/-- The built-in `Object.values(obj)`: the values of the own enumerable properties, in
enumeration order. -/
def Object.values {V : Type} (obj : JsObject V) : List V :=
  (enumerate obj.props).map (fun p => p.2)

namespace JSON

/-- The built-in `JSON.stringify(obj)` on an object: when a lookup of `toJSON` finds a method,
the plain object it returns takes the place of `obj`; then one member is written for each own
enumerable property, in enumeration order, the properties for whose value nothing is written
left out. -/
def stringify {V J : Type} (codec : ValueCodec V J) (obj : JsObject V) : JsonText J :=
  let holder :=
    match obj.toJSON with
    | some method => method obj.props
    | none => obj.props
  (enumerate holder).filterMap (fun p => (codec.stringifyValue p.2).map (fun j => (p.1, j)))

/-- The built-in `JSON.parse(text)` on the text of an object: the members are defined on a new
plain object one after the other, so that a repeated key keeps the last of its values. -/
def parse {V J : Type} (codec : ValueCodec V J) (text : JsonText J) : JsObject V :=
  text.foldl (fun obj m => obj.define m.1 (codec.parseValue m.2)) (JsObject.create none)

end JSON

/-- The function `getJSON(obj)`: `return JSON.stringify(obj)`. -/
def getJSON {V J : Type} (codec : ValueCodec V J) (obj : JsObject V) : JsonText J :=
  JSON.stringify codec obj

/-- The function `fromJSON(proto, json)`, `proto` being given by its `constructor`:
`JSON.parse(json)`, then `Object.values` of the object, then `new proto.constructor(...values)`. -/
def fromJSON {V J : Type} (codec : ValueCodec V J) (constructor : List V → JsObject V)
    (json : JsonText J) : JsObject V :=
  let object := JSON.parse codec json
  let values := Object.values object
  constructor values

/-- The call `new Rectangle(...values)` with any values, as `fromJSON` makes it: `width` and
`height` take the first two arguments (`undefined` when missing), `getArea` a function; the
prototype has no `toJSON`. -/
def Rectangle.construct (values : List JsValue) : JsObject JsValue :=
  (((JsObject.create none).assign "width" (values.getD 0 .undefined)).assign "height"
    (values.getD 1 .undefined)).assign "getArea" (.func "getArea")

/-- A constructor that stores its i-th argument in the i-th of the given fields, from `obj`
on: `this[field] = argument` for each field in turn (`undefined` when the argument is
missing). -/
def positionalFrom {V J : Type} (codec : ValueCodec V J) (obj : JsObject V) :
    List String → List V → JsObject V
  | [], _ => obj
  | f :: fs, values =>
      positionalFrom codec (obj.assign f (values.headD codec.undefined)) fs values.tail

/-- The call `new C(...values)` of a constructor `C` that stores its i-th argument in its i-th
declared field and does nothing else, the prototype of `C` having the given `toJSON`, if any. -/
def positional {V J : Type} (codec : ValueCodec V J)
    (toJSON : Option (List (String × V) → List (String × V))) (fields : List String)
    (values : List V) : JsObject V :=
  positionalFrom codec (JsObject.create toJSON) fields values

/-- A value is JSON-representable: `JSON.stringify` writes a text for it and `JSON.parse` builds
the value again from that text. -/
def representable {V J : Type} (codec : ValueCodec V J) (v : V) : Prop :=
  ∃ j, codec.stringifyValue v = some j ∧ codec.parseValue j = v

namespace cssSelectorBuilder

/-- The entry `stringify()` called on the facade, where `this.stringify` is the entry itself:
the body is the statement `this.stringify();` and has no `return`. With `fuel` bounding the
depth of the calls, the result is `none` when the call has not returned within the bound and
`some undefined` when it has. -/
def stringify : Nat → Option JsValue
  | 0 => none
  | fuel + 1 =>
      match stringify fuel with
      | none => none
      | some _ => some JsValue.undefined

end cssSelectorBuilder

/-! ## Basic facts -/

theorem secondLast_push (arranging : List String) (x : String) (h : arranging ≠ []) :
    MySuperBaseElementSelector.secondLast (arranging ++ [x]) = arranging.getLast? := by
  unfold MySuperBaseElementSelector.secondLast
  have hpos : 0 < arranging.length := List.length_pos.mpr h
  have hlen : (arranging ++ [x]).length - 2 = arranging.length - 1 := by
    simp only [List.length_append, List.length_singleton]; omega
  rw [hlen, List.getElem?_append_left (by omega), List.getLast?_eq_getElem?]

theorem Kind.label_injective : Function.Injective Kind.label := by
  intro a b h
  cases a <;> cases b <;> first | rfl | (exact absurd h (by decide))

theorem orderTest_push (arranging : List String) (x : String) (P : Option String → Prop) :
    ((arranging ++ [x]).length > 1 ∧ P (MySuperBaseElementSelector.secondLast (arranging ++ [x])))
      ↔ (arranging ≠ [] ∧ P arranging.getLast?) := by
  by_cases h : arranging = []
  · subst h; simp
  · rw [secondLast_push arranging x h]
    have hpos : 0 < arranging.length := List.length_pos.mpr h
    simp only [List.length_append, List.length_singleton]
    constructor
    · rintro ⟨_, hp⟩; exact ⟨h, hp⟩
    · rintro ⟨_, hp⟩; exact ⟨by omega, hp⟩

theorem ofCalls_arranging_getLast? (pre : List Call) :
    (ofCalls pre).arranging.getLast? = (pre.getLast?.map Call.kind).map Kind.label := by
  simp only [ofCalls, List.getLast?_map, Option.map_map]
  rfl

theorem ofCalls_arranging_eq_nil (pre : List Call) : (ofCalls pre).arranging = [] ↔ pre = [] := by
  simp [ofCalls]

theorem ofCalls_append (pre : List Call) (c : Call) :
    ofCalls (pre ++ [c]) =
      { selector := (ofCalls pre).selector ++ [c.token]
        elements := (ofCalls pre).elements ++ (if c.kind = Kind.element then [c.token] else [])
        ids := (ofCalls pre).ids ++ (if c.kind = Kind.id then [c.token] else [])
        pseudoElements :=
          (ofCalls pre).pseudoElements ++ (if c.kind = Kind.pseudoElement then [c.token] else [])
        arranging := (ofCalls pre).arranging ++ [c.kind.label] } := by
  simp only [ofCalls, List.map_append, List.filter_append, List.map_cons, List.map_nil,
    MySuperBaseElementSelector.mk.injEq, true_and, List.append_cancel_left_eq]
  refine ⟨?_, ?_, ?_⟩ <;> split <;> rename_i h <;> simp [List.filter_cons, h]

theorem ofCalls_elements_length (pre : List Call) :
    (ofCalls pre).elements.length = 0 ↔ Kind.element ∉ pre.map Call.kind := by
  simp [ofCalls, List.filter_eq_nil_iff]

theorem ofCalls_ids_length (pre : List Call) :
    (ofCalls pre).ids.length = 0 ↔ Kind.id ∉ pre.map Call.kind := by
  simp [ofCalls, List.filter_eq_nil_iff]

theorem ofCalls_pseudoElements_length (pre : List Call) :
    (ofCalls pre).pseudoElements.length = 0 ↔ Kind.pseudoElement ∉ pre.map Call.kind := by
  simp [ofCalls, List.filter_eq_nil_iff]

/-- The order test of each method on a builder that holds the fragments of `pre`, read on the
kind of the last of them. -/
theorem orderTest_ofCalls (pre : List Call) (x : String) (allowed : List Kind) :
    (((ofCalls pre).arranging ++ [x]).length > 1
        ∧ ∀ a ∈ allowed,
            MySuperBaseElementSelector.secondLast ((ofCalls pre).arranging ++ [x]) ≠ some a.label)
      ↔ ∃ p, pre.getLast?.map Call.kind = some p ∧ p ∉ allowed := by
  rw [orderTest_push _ _ (fun o => ∀ a ∈ allowed, o ≠ some a.label),
    ofCalls_arranging_getLast?, ne_eq, ofCalls_arranging_eq_nil]
  rcases List.eq_nil_or_concat pre with h | ⟨init, p, h⟩
  · subst h; simp
  · subst h
    have hl : (init.concat p).getLast? = some p := by simp
    have hn : init.concat p ≠ [] := by simp
    simp only [hl, Option.map_some', Option.some.injEq, hn, not_false_eq_true, true_and,
      exists_eq_left']
    constructor
    · intro h hmem
      exact h _ hmem rfl
    · intro h a ha heq
      exact h (Kind.label_injective (Option.some.inj heq) ▸ ha)

theorem accepts_eq_false_iff (prev : Option Kind) (k : Kind) :
    accepts prev k = false ↔ ∃ p, prev = some p ∧ p ∉ allowedBefore k := by
  cases prev <;> simp [accepts]

/-- What a fragment call does on a builder that holds the fragments of `pre`. -/
theorem call_ofCalls (pre : List Call) (c : Call) :
    (ofCalls pre).call c =
      if c.kind.single = true ∧ c.kind ∈ pre.map Call.kind then
        { state := ofCalls pre, thrown := some duplicateMessage }
      else
        { state := ofCalls (pre ++ [c])
          thrown :=
            if accepts (pre.getLast?.map Call.kind) c.kind = true then none
            else some orderMessage } := by
  obtain ⟨k, v⟩ := c
  have key := fun x => orderTest_ofCalls pre x (allowedBefore k)
  cases k
  · have key1 : (((ofCalls pre).arranging ++ ["element"]).length > 1
        ∧ MySuperBaseElementSelector.secondLast ((ofCalls pre).arranging ++ ["element"])
            ≠ some "element")
        ↔ accepts (pre.getLast?.map Call.kind) Kind.element = false := by
      rw [accepts_eq_false_iff, ← key "element"]
      simp [allowedBefore, Kind.label]
    simp only [MySuperBaseElementSelector.call, MySuperBaseElementSelector.element,
      ofCalls_elements_length, key1, Kind.single, true_and]
    by_cases hd : Kind.element ∈ pre.map Call.kind
    · simp [hd]
    · cases ha : accepts (pre.getLast?.map Call.kind) Kind.element <;>
        simp [hd, ofCalls_append, Call.token, Kind.label]
  · have key1 : (((ofCalls pre).arranging ++ ["id"]).length > 1
        ∧ MySuperBaseElementSelector.secondLast ((ofCalls pre).arranging ++ ["id"])
            ≠ some "element")
        ↔ accepts (pre.getLast?.map Call.kind) Kind.id = false := by
      rw [accepts_eq_false_iff, ← key "id"]
      simp [allowedBefore, Kind.label]
    simp only [MySuperBaseElementSelector.call, MySuperBaseElementSelector.id,
      ofCalls_ids_length, key1, Kind.single, true_and]
    by_cases hd : Kind.id ∈ pre.map Call.kind
    · simp [hd]
    · cases ha : accepts (pre.getLast?.map Call.kind) Kind.id <;>
        simp [hd, ofCalls_append, Call.token, Kind.label]
  · have key1 : (((ofCalls pre).arranging ++ ["class"]).length > 1
        ∧ MySuperBaseElementSelector.secondLast ((ofCalls pre).arranging ++ ["class"])
            ≠ some "element"
        ∧ MySuperBaseElementSelector.secondLast ((ofCalls pre).arranging ++ ["class"])
            ≠ some "id"
        ∧ MySuperBaseElementSelector.secondLast ((ofCalls pre).arranging ++ ["class"])
            ≠ some "class")
        ↔ accepts (pre.getLast?.map Call.kind) Kind.class_ = false := by
      rw [accepts_eq_false_iff, ← key "class"]
      simp [allowedBefore, Kind.label]
    simp only [MySuperBaseElementSelector.call, MySuperBaseElementSelector.class_,
      key1, Kind.single, false_and]
    cases ha : accepts (pre.getLast?.map Call.kind) Kind.class_ <;>
      simp [ofCalls_append, Call.token, Kind.label]
  · have key1 : (((ofCalls pre).arranging ++ ["attr"]).length > 1
        ∧ MySuperBaseElementSelector.secondLast ((ofCalls pre).arranging ++ ["attr"])
            ≠ some "element"
        ∧ MySuperBaseElementSelector.secondLast ((ofCalls pre).arranging ++ ["attr"])
            ≠ some "id"
        ∧ MySuperBaseElementSelector.secondLast ((ofCalls pre).arranging ++ ["attr"])
            ≠ some "class"
        ∧ MySuperBaseElementSelector.secondLast ((ofCalls pre).arranging ++ ["attr"])
            ≠ some "attr")
        ↔ accepts (pre.getLast?.map Call.kind) Kind.attr = false := by
      rw [accepts_eq_false_iff, ← key "attr"]
      simp [allowedBefore, Kind.label]
    simp only [MySuperBaseElementSelector.call, MySuperBaseElementSelector.attr,
      key1, Kind.single, false_and]
    cases ha : accepts (pre.getLast?.map Call.kind) Kind.attr <;>
      simp [ofCalls_append, Call.token, Kind.label]
  · have key1 : (((ofCalls pre).arranging ++ ["pseudoClass"]).length > 1
        ∧ MySuperBaseElementSelector.secondLast ((ofCalls pre).arranging ++ ["pseudoClass"])
            ≠ some "element"
        ∧ MySuperBaseElementSelector.secondLast ((ofCalls pre).arranging ++ ["pseudoClass"])
            ≠ some "id"
        ∧ MySuperBaseElementSelector.secondLast ((ofCalls pre).arranging ++ ["pseudoClass"])
            ≠ some "class"
        ∧ MySuperBaseElementSelector.secondLast ((ofCalls pre).arranging ++ ["pseudoClass"])
            ≠ some "attr"
        ∧ MySuperBaseElementSelector.secondLast ((ofCalls pre).arranging ++ ["pseudoClass"])
            ≠ some "pseudoClass")
        ↔ accepts (pre.getLast?.map Call.kind) Kind.pseudoClass = false := by
      rw [accepts_eq_false_iff, ← key "pseudoClass"]
      simp [allowedBefore, Kind.label]
    simp only [MySuperBaseElementSelector.call, MySuperBaseElementSelector.pseudoClass,
      key1, Kind.single, false_and]
    cases ha : accepts (pre.getLast?.map Call.kind) Kind.pseudoClass <;>
      simp [ofCalls_append, Call.token, Kind.label]
  · have key1 : (((ofCalls pre).arranging ++ ["pseudoElement"]).length > 1
        ∧ MySuperBaseElementSelector.secondLast ((ofCalls pre).arranging ++ ["pseudoElement"])
            ≠ some "element"
        ∧ MySuperBaseElementSelector.secondLast ((ofCalls pre).arranging ++ ["pseudoElement"])
            ≠ some "id"
        ∧ MySuperBaseElementSelector.secondLast ((ofCalls pre).arranging ++ ["pseudoElement"])
            ≠ some "class"
        ∧ MySuperBaseElementSelector.secondLast ((ofCalls pre).arranging ++ ["pseudoElement"])
            ≠ some "attr"
        ∧ MySuperBaseElementSelector.secondLast ((ofCalls pre).arranging ++ ["pseudoElement"])
            ≠ some "pseudoClass")
        ↔ accepts (pre.getLast?.map Call.kind) Kind.pseudoElement = false := by
      rw [accepts_eq_false_iff, ← key "pseudoElement"]
      simp [allowedBefore, Kind.label]
    simp only [MySuperBaseElementSelector.call, MySuperBaseElementSelector.pseudoElement,
      ofCalls_pseudoElements_length, key1, Kind.single, true_and]
    by_cases hd : Kind.pseudoElement ∈ pre.map Call.kind
    · simp [hd]
    · cases ha : accepts (pre.getLast?.map Call.kind) Kind.pseudoElement <;>
        simp [hd, ofCalls_append, Call.token, Kind.label]

theorem new_eq_ofCalls : MySuperBaseElementSelector.new = ofCalls [] := rfl

/-- The builder after any calls holds the fragments of the calls that were kept. -/
theorem runCalls_ofCalls (pre cs : List Call) :
    (ofCalls pre).runCalls cs = ofCalls (pre ++ keepFrom (pre.map Call.kind) cs) := by
  induction cs generalizing pre with
  | nil => simp [MySuperBaseElementSelector.runCalls, keepFrom]
  | cons c cs ih =>
    rw [MySuperBaseElementSelector.runCalls, call_ofCalls, keepFrom]
    by_cases hd : c.kind.single = true ∧ c.kind ∈ pre.map Call.kind
    · rw [if_pos hd, if_pos hd]
      exact ih pre
    · rw [if_neg hd, if_neg hd]
      simp only
      rw [ih (pre ++ [c])]
      simp

theorem runCalls_new (calls : List Call) :
    MySuperBaseElementSelector.new.runCalls calls = ofCalls (keepFrom [] calls) := by
  rw [new_eq_ofCalls, runCalls_ofCalls]; rfl

/-- The first of a sequence of calls, made on a builder that holds the fragments of `pre`,
returns exactly when its kind is not a once-only kind already present and it passes the order
test; the calls after it all return exactly when they do so on the builder with its fragment. -/
theorem allSucceed_cons_ofCalls (pre : List Call) (c : Call) (cs : List Call) :
    (ofCalls pre).allSucceed (c :: cs) ↔
      ¬ (c.kind.single = true ∧ c.kind ∈ pre.map Call.kind)
        ∧ accepts (pre.getLast?.map Call.kind) c.kind = true
        ∧ (ofCalls (pre ++ [c])).allSucceed cs := by
  unfold MySuperBaseElementSelector.allSucceed
  rw [MySuperBaseElementSelector.outcomes, call_ofCalls]
  by_cases hd : c.kind.single = true ∧ c.kind ∈ pre.map Call.kind
  · rw [if_pos hd]
    simp only [List.mem_cons, forall_eq_or_imp, reduceCtorEq, false_and, hd, and_self,
      not_true_eq_false]
  · rw [if_neg hd]
    cases ha : accepts (pre.getLast?.map Call.kind) c.kind
    · simp only [List.mem_cons, forall_eq_or_imp, Bool.false_eq_true, if_false, reduceCtorEq,
        false_and, and_false]
    · simp only [List.mem_cons, forall_eq_or_imp, if_true, true_and, hd, not_false_eq_true]

theorem runCalls_of_allSucceed (pre cs : List Call) (h : (ofCalls pre).allSucceed cs) :
    (ofCalls pre).runCalls cs = ofCalls (pre ++ cs) := by
  induction cs generalizing pre with
  | nil => simp [MySuperBaseElementSelector.runCalls]
  | cons c cs ih =>
    obtain ⟨hd, _, hrest⟩ := (allSucceed_cons_ofCalls pre c cs).mp h
    rw [MySuperBaseElementSelector.runCalls, call_ofCalls, if_neg hd]
    simp only
    rw [ih (pre ++ [c]) hrest]
    simp

/-! ## C1 -/

/-- C1. When every call of a finite sequence of fragment calls, made in order on a fresh builder,
returns without throwing, `stringify()` then returns exactly the concatenation, in call order, of
the tokens of the calls. -/
theorem stringify_eq_concat_tokens (calls : List Call)
    (h : MySuperBaseElementSelector.new.allSucceed calls) :
    (MySuperBaseElementSelector.new.runCalls calls).stringify.1
      = String.join (calls.map Call.token) := by
  rw [new_eq_ofCalls] at h ⊢
  rw [runCalls_of_allSucceed [] calls h]
  rfl

/-- The chain `element('a').id('x').class('c1').class('c2').attr('href$=".png"')
.pseudoClass('focus').pseudoElement('before')` succeeds and renders
`a#x.c1.c2[href$=".png"]:focus::before`. -/
theorem stringify_eq_concat_tokens_witness :
    MySuperBaseElementSelector.new.allSucceed
        [⟨.element, "a"⟩, ⟨.id, "x"⟩, ⟨.class_, "c1"⟩, ⟨.class_, "c2"⟩,
          ⟨.attr, "href$=\".png\""⟩, ⟨.pseudoClass, "focus"⟩, ⟨.pseudoElement, "before"⟩]
      ∧ (MySuperBaseElementSelector.new.runCalls
          [⟨.element, "a"⟩, ⟨.id, "x"⟩, ⟨.class_, "c1"⟩, ⟨.class_, "c2"⟩,
            ⟨.attr, "href$=\".png\""⟩, ⟨.pseudoClass, "focus"⟩,
            ⟨.pseudoElement, "before"⟩]).stringify.1
          = "a#x.c1.c2[href$=\".png\"]:focus::before" :=
  ⟨by decide, (stringify_eq_concat_tokens _ (by decide)).trans (by decide)⟩

/-! ## C2 -/

theorem onceOnly_iff (kinds : List Kind) :
    onceOnly kinds ↔ ∀ k : Kind, k.single = true → kinds.count k ≤ 1 := by
  constructor
  · rintro ⟨h1, h2, h3⟩ k hk
    cases k <;> first | assumption | exact absurd hk (by decide)
  · intro h
    exact ⟨h _ rfl, h _ rfl, h _ rfl⟩

theorem mem_allowedBefore_iff (p c : Kind) :
    p ∈ allowedBefore c ↔ p.rank ≤ c.rank ∧ ¬ (c.single = true ∧ p = c ∧ c ≠ Kind.element) := by
  cases p <;> cases c <;> decide

/-- One more call keeps a valid kind sequence valid exactly when the call is let through. -/
theorem valid_push_iff (ks : List Kind) (c : Kind) (hs : nonDecreasing ks) (ho : onceOnly ks) :
    (¬ (c.single = true ∧ c ∈ ks) ∧ accepts ks.getLast? c = true)
      ↔ (nonDecreasing (ks ++ [c]) ∧ onceOnly (ks ++ [c])) := by
  simp only [onceOnly_iff] at ho ⊢
  unfold nonDecreasing at hs ⊢
  simp only [List.pairwise_append, hs, List.pairwise_singleton, List.mem_singleton, forall_eq,
    true_and, List.count_append, List.count_singleton]
  have hdup : (∀ k : Kind, k.single = true →
      List.count k ks + (if (c == k) = true then 1 else 0) ≤ 1)
      ↔ ¬ (c.single = true ∧ c ∈ ks) := by
    constructor
    · rintro h ⟨hc, hmem⟩
      have h1 := h c hc
      have h2 : 0 < List.count c ks := List.count_pos_iff.mpr hmem
      simp at h1
      omega
    · intro h k hk
      by_cases hck : c = k
      · subst hck
        have : c ∉ ks := fun hm => h ⟨hk, hm⟩
        simp [List.count_eq_zero_of_not_mem this]
      · have := ho k hk
        simp [hck]
        exact this
  rw [hdup]
  rcases List.eq_nil_or_concat ks with h | ⟨init, p, h⟩
  · subst h; simp [accepts]
  · subst h
    have hl : (init.concat p).getLast? = some p := by simp
    simp only [hl, accepts, decide_eq_true_eq, mem_allowedBefore_iff]
    rw [List.concat_eq_append, List.pairwise_append] at hs
    obtain ⟨_, _, hip⟩ := hs
    constructor
    · rintro ⟨hd, hr, _⟩
      refine ⟨?_, hd⟩
      intro a ha
      rw [List.concat_eq_append, List.mem_append, List.mem_singleton] at ha
      rcases ha with ha | ha
      · exact le_trans (hip a ha p (List.mem_singleton_self p)) hr
      · exact ha ▸ hr
    · rintro ⟨hr, hd⟩
      refine ⟨hd, hr p (by simp), ?_⟩
      rintro ⟨hc, hpc, _⟩
      exact hd ⟨hc, by simp [hpc]⟩

theorem valid_prefix (pre : List Kind) (c : Kind) (cs : List Kind)
    (h : nonDecreasing (pre ++ c :: cs) ∧ onceOnly (pre ++ c :: cs)) :
    nonDecreasing (pre ++ [c]) ∧ onceOnly (pre ++ [c]) := by
  have hsub : List.Sublist (pre ++ [c]) (pre ++ c :: cs) :=
    List.Sublist.append_left ((List.singleton_sublist).mpr (List.mem_cons_self c cs)) pre
  refine ⟨List.Pairwise.sublist hsub h.1, ?_⟩
  rw [onceOnly_iff] at *
  intro k hk
  exact le_trans (List.Sublist.count_le hsub k) (h.2 k hk)

/-- On a builder that holds the fragments of a valid sequence `pre`, further calls all return
exactly when the whole sequence stays valid. -/
theorem allSucceed_ofCalls_iff (pre cs : List Call)
    (hs : nonDecreasing (pre.map Call.kind)) (ho : onceOnly (pre.map Call.kind)) :
    (ofCalls pre).allSucceed cs
      ↔ (nonDecreasing ((pre ++ cs).map Call.kind) ∧ onceOnly ((pre ++ cs).map Call.kind)) := by
  induction cs generalizing pre with
  | nil =>
    simp only [List.append_nil, hs, ho, and_self, iff_true]
    intro o ho
    simp [MySuperBaseElementSelector.outcomes] at ho
  | cons c cs ih =>
    have hstep := valid_push_iff (pre.map Call.kind) c.kind hs ho
    rw [List.getLast?_map] at hstep
    rw [allSucceed_cons_ofCalls, ← and_assoc, hstep]
    have hpush : (pre.map Call.kind) ++ [c.kind] = (pre ++ [c]).map Call.kind := by simp
    have hall : (pre ++ c :: cs).map Call.kind = (pre.map Call.kind) ++ c.kind :: cs.map Call.kind := by
      simp
    constructor
    · rintro ⟨⟨h1, h2⟩, h3⟩
      rw [hpush] at h1 h2
      have := (ih (pre ++ [c]) h1 h2).mp h3
      simpa using this
    · intro h
      rw [hall] at h
      have hp := valid_prefix _ _ _ h
      refine ⟨hp, ?_⟩
      rw [hpush] at hp
      refine (ih (pre ++ [c]) hp.1 hp.2).mpr ?_
      rw [← hall] at h
      simpa using h

/-- C2. The calls of a finite sequence of fragment calls, made in order on a fresh builder, all
return without throwing if and only if the sequence of their kinds is non-decreasing in the rank
order element(0) < id(1) < class(2) < attribute(3) < pseudo-class(4) < pseudo-element(5) and
each of element, id and pseudo-element occurs at most once; in particular the second call of
`class('a').element('div')` throws the ordering error. -/
theorem allSucceed_iff_nonDecreasing_onceOnly :
    (∀ calls : List Call,
        MySuperBaseElementSelector.new.allSucceed calls
          ↔ (nonDecreasing (calls.map Call.kind) ∧ onceOnly (calls.map Call.kind)))
      ∧ MySuperBaseElementSelector.new.outcomes [⟨.class_, "a"⟩, ⟨.element, "div"⟩]
          = [none, some orderMessage] := by
  refine ⟨fun calls => ?_, by decide⟩
  rw [new_eq_ofCalls]
  have := allSucceed_ofCalls_iff [] calls (by simp [nonDecreasing]) (by decide)
  simpa using this

/-! ## C3 and C4 -/

theorem label_mem_arranging_ofCalls (pre : List Call) (k : Kind) :
    k.label ∈ (ofCalls pre).arranging ↔ k ∈ pre.map Call.kind := by
  simp only [ofCalls, List.mem_map]
  constructor
  · rintro ⟨c, hc, h⟩
    exact ⟨c, hc, Kind.label_injective h⟩
  · rintro ⟨c, hc, h⟩
    exact ⟨c, hc, by rw [h]⟩

theorem thrown_duplicate_ofCalls (pre : List Call) (c : Call) :
    ((ofCalls pre).call c).thrown = some duplicateMessage
      ↔ (c.kind.single = true ∧ c.kind ∈ pre.map Call.kind) := by
  rw [call_ofCalls]
  by_cases hd : c.kind.single = true ∧ c.kind ∈ pre.map Call.kind
  · rw [if_pos hd]
    simp only [hd, and_self]
  · rw [if_neg hd]
    cases accepts (pre.getLast?.map Call.kind) c.kind
    · simp only [Bool.false_eq_true, if_false, Option.some.injEq, hd, iff_false]
      decide
    · simp only [if_true, reduceCtorEq, hd]

theorem thrown_order_ofCalls (pre : List Call) (c : Call)
    (hd : ¬ (c.kind.single = true ∧ c.kind ∈ pre.map Call.kind)) :
    ((ofCalls pre).call c).thrown = some orderMessage
      ↔ ∃ p, pre.getLast?.map Call.kind = some p ∧ p ∉ allowedBefore c.kind := by
  rw [call_ofCalls, if_neg hd, ← accepts_eq_false_iff]
  cases accepts (pre.getLast?.map Call.kind) c.kind <;> simp

theorem not_mem_allowedBefore_iff (p k : Kind) (h : ¬ (k.single = true ∧ p = k)) :
    p ∉ allowedBefore k ↔ p ∈ rejectedBefore k := by
  revert h
  cases p <;> cases k <;> decide

theorem mem_keepFrom (seen : List Kind) (cs : List Call) (k : Kind) :
    (k ∈ seen ∨ k ∈ (keepFrom seen cs).map Call.kind) ↔ (k ∈ seen ∨ k ∈ cs.map Call.kind) := by
  induction cs generalizing seen with
  | nil => simp [keepFrom]
  | cons c cs ih =>
    rw [keepFrom]
    by_cases hd : c.kind.single = true ∧ c.kind ∈ seen
    · rw [if_pos hd, ih seen]
      simp only [List.map_cons, List.mem_cons]
      constructor
      · rintro (h | h)
        · exact Or.inl h
        · exact Or.inr (Or.inr h)
      · rintro (h | h | h)
        · exact Or.inl h
        · exact Or.inl (h ▸ hd.2)
        · exact Or.inr h
    · rw [if_neg hd]
      have := ih (seen ++ [c.kind])
      simp only [List.mem_append, List.mem_singleton] at this
      simp only [List.map_cons, List.mem_cons]
      tauto

/-- C3. In every builder state reached from a fresh builder by fragment calls, returned or
thrown, a fragment call throws the duplicate error if and only if it is a call of element, id or
pseudoElement and a fragment of that kind was appended to the builder before, which is the case
exactly when an earlier call had that kind; so class, attr and pseudoClass never throw it. On
`element('a').class('b').element('c')`, where the order rule is broken too, the third call
throws the duplicate error. -/
theorem duplicate_iff_kind_present :
    (∀ (calls : List Call) (c : Call),
        (((MySuperBaseElementSelector.new.runCalls calls).call c).thrown = some duplicateMessage
          ↔ (c.kind.single = true
              ∧ c.kind.label ∈ (MySuperBaseElementSelector.new.runCalls calls).arranging))
        ∧ (c.kind.label ∈ (MySuperBaseElementSelector.new.runCalls calls).arranging
          ↔ c.kind ∈ calls.map Call.kind))
      ∧ MySuperBaseElementSelector.new.outcomes
          [⟨.element, "a"⟩, ⟨.class_, "b"⟩, ⟨.element, "c"⟩]
          = [none, none, some duplicateMessage] := by
  refine ⟨fun calls c => ?_, by decide⟩
  rw [runCalls_new, thrown_duplicate_ofCalls, label_mem_arranging_ofCalls]
  refine ⟨Iff.rfl, ?_⟩
  simpa using mem_keepFrom [] calls c.kind

theorem selector_ofCalls_eq_nil (pre : List Call) : (ofCalls pre).selector = [] ↔ pre = [] := by
  simp [ofCalls]

/-- C4. In every builder state reached from a fresh builder by fragment calls, a fragment call
that does not throw the duplicate error throws the ordering error if and only if the builder
holds a fragment already and the kind of the fragment just before is: any kind, for element; any
kind other than element, for id; attribute, pseudo-class or pseudo-element, for class;
pseudo-class or pseudo-element, for attr; pseudo-element, for pseudoClass (and no kind at all for
pseudoElement). On an empty builder no fragment call throws the ordering error. -/
theorem order_iff_preceding_rejected (calls : List Call) (c : Call)
    (h : ((MySuperBaseElementSelector.new.runCalls calls).call c).thrown
        ≠ some duplicateMessage) :
    (((MySuperBaseElementSelector.new.runCalls calls).call c).thrown = some orderMessage
        ↔ ∃ p : Kind,
            (MySuperBaseElementSelector.new.runCalls calls).arranging.getLast? = some p.label
              ∧ p ∈ rejectedBefore c.kind)
      ∧ ((MySuperBaseElementSelector.new.runCalls calls).selector = [] →
          ((MySuperBaseElementSelector.new.runCalls calls).call c).thrown ≠ some orderMessage) := by
  rw [runCalls_new] at h ⊢
  generalize keepFrom [] calls = pre at h ⊢
  rw [ne_eq, thrown_duplicate_ofCalls] at h
  have hiff : ((ofCalls pre).call c).thrown = some orderMessage
      ↔ ∃ p : Kind, (ofCalls pre).arranging.getLast? = some p.label
          ∧ p ∈ rejectedBefore c.kind := by
    rw [thrown_order_ofCalls pre c h, ofCalls_arranging_getLast?]
    constructor
    · rintro ⟨p, hp, hna⟩
      refine ⟨p, by rw [hp]; rfl, ?_⟩
      refine (not_mem_allowedBefore_iff p c.kind ?_).mp hna
      rintro ⟨hs, hpc⟩
      refine h ⟨hs, ?_⟩
      rw [← hpc, ← List.getLast?_map] at *
      exact List.mem_of_getLast?_eq_some hp
    · rintro ⟨p, hp, hr⟩
      have hp1 : pre.getLast?.map Call.kind = some p := by
        cases hl : pre.getLast?.map Call.kind with
        | none => rw [hl] at hp; simp at hp
        | some q =>
          rw [hl] at hp
          simp only [Option.map_some', Option.some.injEq] at hp
          rw [Kind.label_injective hp]
      refine ⟨p, hp1, ?_⟩
      refine (not_mem_allowedBefore_iff p c.kind ?_).mpr hr
      rintro ⟨hs, hpc⟩
      refine h ⟨hs, ?_⟩
      rw [← hpc, ← List.getLast?_map] at *
      exact List.mem_of_getLast?_eq_some hp1
  refine ⟨hiff, ?_⟩
  intro hempty
  rw [ne_eq, hiff]
  rw [selector_ofCalls_eq_nil] at hempty
  subst hempty
  simp [ofCalls]

/-- After `class('a')`, the call `element('div')` does not throw the duplicate error and
throws the ordering error: the fragment before it is of kind class. -/
theorem order_iff_preceding_rejected_witness :
    ((MySuperBaseElementSelector.new.runCalls [⟨.class_, "a"⟩]).call ⟨.element, "div"⟩).thrown
        ≠ some duplicateMessage
      ∧ ((((MySuperBaseElementSelector.new.runCalls [⟨.class_, "a"⟩]).call
              ⟨.element, "div"⟩).thrown = some orderMessage
          ↔ ∃ p : Kind,
              (MySuperBaseElementSelector.new.runCalls [⟨.class_, "a"⟩]).arranging.getLast?
                  = some p.label
                ∧ p ∈ rejectedBefore (Call.mk Kind.element "div").kind)
        ∧ ((MySuperBaseElementSelector.new.runCalls [⟨.class_, "a"⟩]).selector = [] →
            ((MySuperBaseElementSelector.new.runCalls [⟨.class_, "a"⟩]).call
              ⟨.element, "div"⟩).thrown ≠ some orderMessage)) :=
  ⟨by decide, order_iff_preceding_rejected [⟨.class_, "a"⟩] ⟨.element, "div"⟩ (by decide)⟩

/-! ## C5 and C6 -/

theorem String.join_append_lists (l₁ l₂ : List String) :
    String.join (l₁ ++ l₂) = String.join l₁ ++ String.join l₂ := by
  apply String.ext
  simp [String.data_join]

theorem String.join_cons_list (a : String) (l : List String) :
    String.join (a :: l) = a ++ String.join l := by
  apply String.ext
  simp [String.data_join]

theorem String.join_nil_list : String.join [] = "" := rfl

theorem String.join_three (a b c : String) : String.join [a, b, c] = a ++ b ++ c := by
  apply String.ext
  simp [String.data_join]

theorem stringify_combine (self a b : MySuperBaseElementSelector) (c : String) :
    (self.combine a c b).stringify.1 = a.stringify.1 ++ " " ++ c ++ " " ++ b.stringify.1 := by
  simp only [MySuperBaseElementSelector.combine, MySuperBaseElementSelector.stringify,
    String.join_append_lists, String.join_three, String.append_assoc]

/-- C5. For all builders `a` and `b` and every combinator string `c`,
`cssSelectorBuilder.combine(a, c, b).stringify()` is `a.stringify() + " " + c + " " +
b.stringify()`; `combine(element('div').id('main'), '+', element('table').id('data'))` renders
`div#main + table#data`, and with the combinator `' '` three spaces stand between the two
rendered selectors. -/
theorem stringify_facade_combine :
    (∀ (a b : MySuperBaseElementSelector) (c : String),
        (cssSelectorBuilder.combine a c b).stringify.1
          = a.stringify.1 ++ " " ++ c ++ " " ++ b.stringify.1)
      ∧ (cssSelectorBuilder.combine ((cssSelectorBuilder.element "div").state.id "main").state "+"
            ((cssSelectorBuilder.element "table").state.id "data").state).stringify.1
          = "div#main + table#data"
      ∧ (∀ a b : MySuperBaseElementSelector,
          (cssSelectorBuilder.combine a " " b).stringify.1
            = a.stringify.1 ++ "   " ++ b.stringify.1) := by
  refine ⟨fun a b c => stringify_combine _ a b c, by decide, fun a b => ?_⟩
  rw [cssSelectorBuilder.combine, stringify_combine]
  simp only [String.append_assoc]
  rfl

/-- C6. Nested combination renders the same string whichever way it is nested: for all builders
`a`, `b`, `d` and combinators `c1`, `c2`, both `combine(combine(a, c1, b), c2, d)` and
`combine(a, c1, combine(b, c2, d))` render `a.stringify() + " " + c1 + " " + b.stringify() +
" " + c2 + " " + d.stringify()`. -/
theorem stringify_combine_assoc (a b d : MySuperBaseElementSelector) (c1 c2 : String) :
    (cssSelectorBuilder.combine (cssSelectorBuilder.combine a c1 b) c2 d).stringify.1
        = (cssSelectorBuilder.combine a c1 (cssSelectorBuilder.combine b c2 d)).stringify.1
      ∧ (cssSelectorBuilder.combine (cssSelectorBuilder.combine a c1 b) c2 d).stringify.1
        = a.stringify.1 ++ " " ++ c1 ++ " " ++ b.stringify.1 ++ " " ++ c2 ++ " "
            ++ d.stringify.1 := by
  simp only [cssSelectorBuilder.combine, stringify_combine, String.append_assoc, and_self]

/-! ## C7 -/

theorem String.join_one (a : String) : String.join [a] = a := by
  apply String.ext
  simp [String.data_join]

/-- C7. Each of the six entries of the facade, for every string value, returns without throwing
a builder whose fields are those of a fresh `MySuperBaseElementSelector` after the method of the
same name was called with that value, and whose `stringify()` is the token of that one
fragment; so `element('div').stringify()` is `'div'`. -/
theorem facade_entries (value : String) :
    ((cssSelectorBuilder.element value).thrown = none
        ∧ (cssSelectorBuilder.element value).state
            = (MySuperBaseElementSelector.new.element value).state
        ∧ (cssSelectorBuilder.element value).state.stringify.1 = value)
      ∧ ((cssSelectorBuilder.id value).thrown = none
        ∧ (cssSelectorBuilder.id value).state = (MySuperBaseElementSelector.new.id value).state
        ∧ (cssSelectorBuilder.id value).state.stringify.1 = "#" ++ value)
      ∧ ((cssSelectorBuilder.class_ value).thrown = none
        ∧ (cssSelectorBuilder.class_ value).state
            = (MySuperBaseElementSelector.new.class_ value).state
        ∧ (cssSelectorBuilder.class_ value).state.stringify.1 = "." ++ value)
      ∧ ((cssSelectorBuilder.attr value).thrown = none
        ∧ (cssSelectorBuilder.attr value).state
            = (MySuperBaseElementSelector.new.attr value).state
        ∧ (cssSelectorBuilder.attr value).state.stringify.1 = "[" ++ value ++ "]")
      ∧ ((cssSelectorBuilder.pseudoClass value).thrown = none
        ∧ (cssSelectorBuilder.pseudoClass value).state
            = (MySuperBaseElementSelector.new.pseudoClass value).state
        ∧ (cssSelectorBuilder.pseudoClass value).state.stringify.1 = ":" ++ value)
      ∧ ((cssSelectorBuilder.pseudoElement value).thrown = none
        ∧ (cssSelectorBuilder.pseudoElement value).state
            = (MySuperBaseElementSelector.new.pseudoElement value).state
        ∧ (cssSelectorBuilder.pseudoElement value).state.stringify.1 = "::" ++ value)
      ∧ (cssSelectorBuilder.element "div").state.stringify.1 = "div" := by
  refine ⟨⟨?_, rfl, ?_⟩, ⟨?_, rfl, ?_⟩, ⟨?_, rfl, ?_⟩, ⟨?_, rfl, ?_⟩, ⟨?_, rfl, ?_⟩,
    ⟨?_, rfl, ?_⟩, by decide⟩ <;>
  simp [cssSelectorBuilder.element, cssSelectorBuilder.id, cssSelectorBuilder.class_,
    cssSelectorBuilder.attr, cssSelectorBuilder.pseudoClass, cssSelectorBuilder.pseudoElement,
    MySuperBaseElementSelector.element, MySuperBaseElementSelector.id,
    MySuperBaseElementSelector.class_, MySuperBaseElementSelector.attr,
    MySuperBaseElementSelector.pseudoClass, MySuperBaseElementSelector.pseudoElement,
    MySuperBaseElementSelector.new, MySuperBaseElementSelector.stringify, String.join_one]

/-! ## C8 -/

theorem stringifyTimes_eq (n : Nat) (self : MySuperBaseElementSelector) :
    stringifyTimes n self = (List.replicate n (String.join self.selector), self) := by
  induction n with
  | zero => rfl
  | succ n ih =>
    rw [stringifyTimes]
    simp only [MySuperBaseElementSelector.stringify, ih, List.replicate_succ]

/-- C8. The method `stringify()` only reads the builder: for every builder state it leaves the
five fields as they were, so any number of calls in a row return the same string each time and
leave the builder in the state it had, in which every later fragment call has the outcome it
would have had without them. -/
theorem stringify_pure (self : MySuperBaseElementSelector) (n : Nat) (c : Call) :
    self.stringify.2 = self
      ∧ (stringifyTimes n self).1 = List.replicate n self.stringify.1
      ∧ (stringifyTimes n self).2 = self
      ∧ (stringifyTimes n self).2.call c = self.call c := by
  rw [stringifyTimes_eq]
  exact ⟨rfl, rfl, rfl, rfl⟩

/-! ## C9 -/

/-- C9, the claim fails: on the builder returned by
`combine(element('div'), '+', element('p'))` the append `class('x')` is not rejected, it returns
and the builder then renders `div + p.x`; the append `element('a')` returns as well. -/
theorem combined_append_not_rejected :
    ((cssSelectorBuilder.combine (cssSelectorBuilder.element "div").state "+"
          (cssSelectorBuilder.element "p").state).class_ "x").thrown = none
      ∧ ((cssSelectorBuilder.combine (cssSelectorBuilder.element "div").state "+"
          (cssSelectorBuilder.element "p").state).class_ "x").state.stringify.1 = "div + p.x"
      ∧ ((cssSelectorBuilder.combine (cssSelectorBuilder.element "div").state "+"
          (cssSelectorBuilder.element "p").state).element "a").thrown = none := by
  decide

/-- C9, amended. A builder returned by `cssSelectorBuilder.combine` carries no record of kinds
(`elements`, `ids`, `pseudoElements` and `arranging` are empty) and is not closed to appends:
the first structural append on it, of any of the six kinds, returns without error, pushes its
token after the combined fragments, and `stringify()` then renders the combined text followed
by that token. -/
theorem combined_first_append_accepted (a b : MySuperBaseElementSelector) (combinator : String)
    (c : Call) :
    ((cssSelectorBuilder.combine a combinator b).elements = []
        ∧ (cssSelectorBuilder.combine a combinator b).ids = []
        ∧ (cssSelectorBuilder.combine a combinator b).pseudoElements = []
        ∧ (cssSelectorBuilder.combine a combinator b).arranging = [])
      ∧ ((cssSelectorBuilder.combine a combinator b).call c).thrown = none
      ∧ ((cssSelectorBuilder.combine a combinator b).call c).state.selector
          = (cssSelectorBuilder.combine a combinator b).selector ++ [c.token]
      ∧ ((cssSelectorBuilder.combine a combinator b).call c).state.stringify.1
          = a.stringify.1 ++ " " ++ combinator ++ " " ++ b.stringify.1 ++ c.token := by
  obtain ⟨k, v⟩ := c
  refine ⟨⟨rfl, rfl, rfl, rfl⟩, ?_⟩
  cases k <;>
  simp [cssSelectorBuilder.combine, MySuperBaseElementSelector.combine,
    MySuperBaseElementSelector.call, MySuperBaseElementSelector.element,
    MySuperBaseElementSelector.id, MySuperBaseElementSelector.class_,
    MySuperBaseElementSelector.attr, MySuperBaseElementSelector.pseudoClass,
    MySuperBaseElementSelector.pseudoElement, MySuperBaseElementSelector.new,
    MySuperBaseElementSelector.stringify, Call.token, String.join_append_lists,
    String.join_cons_list, String.join_nil_list, String.append_assoc]

/-! ## C10 -/

/-- C10, the claim fails: `new Rectangle(94906267, 94906267).getArea()` returns
`9007199515875288`, the double nearest to the product, while the product of the two integers is
`9007199515875289`. -/
theorem rectangle_area_rounded :
    (Rectangle.new 94906267 94906267).getArea = some 9007199515875288
      ∧ (94906267 : Int) * 94906267 = 9007199515875289
      ∧ (Rectangle.new 94906267 94906267).getArea ≠ some (94906267 * 94906267) := by
  decide

/-- C10, amended. For all numbers `width` and `height` with an integer value,
`new Rectangle(width, height)` has its field `width` equal to the first argument and its field
`height` equal to the second, and `getArea()` returns `width * height` whenever that product is
at most `2 ^ 53` in magnitude. -/
theorem rectangle_fields_area (width height : Int) :
    (Rectangle.new width height).width = width
      ∧ (Rectangle.new width height).height = height
      ∧ ((width * height).natAbs ≤ 2 ^ 53 →
          (Rectangle.new width height).getArea = some (width * height)) := by
  refine ⟨rfl, rfl, fun h => ?_⟩
  simp only [Rectangle.getArea, Rectangle.new, roundDouble, if_pos h]

/-- The rectangle `new Rectangle(10, 20)`: `getArea()` returns `200`. -/
theorem rectangle_fields_area_witness :
    ((10 : Int) * 20).natAbs ≤ 2 ^ 53 ∧ (Rectangle.new 10 20).getArea = some 200 :=
  ⟨by decide, (rectangle_fields_area 10 20).2.2 (by decide)⟩

/-! ## C13 and C14 -/

theorem keepFrom_sublist (seen : List Kind) (cs : List Call) :
    (keepFrom seen cs).Sublist cs := by
  induction cs generalizing seen with
  | nil => simp [keepFrom]
  | cons c cs ih =>
    rw [keepFrom]
    split
    · exact List.Sublist.cons _ (ih seen)
    · exact List.Sublist.cons₂ _ (ih _)

theorem keepFrom_count (seen : List Kind) (cs : List Call) (k : Kind) (hk : k.single = true)
    (h : seen.count k ≤ 1) :
    (seen ++ (keepFrom seen cs).map Call.kind).count k ≤ 1 := by
  induction cs generalizing seen with
  | nil => simpa [keepFrom] using h
  | cons c cs ih =>
    rw [keepFrom]
    by_cases hd : c.kind.single = true ∧ c.kind ∈ seen
    · rw [if_pos hd]
      exact ih seen h
    · rw [if_neg hd]
      have hpush : (seen ++ [c.kind]).count k ≤ 1 := by
        rw [List.count_append, List.count_singleton]
        by_cases hck : c.kind = k
        · subst hck
          have : c.kind ∉ seen := fun hm => hd ⟨hk, hm⟩
          simp [List.count_eq_zero_of_not_mem this]
        · simpa [hck] using h
      have := ih (seen ++ [c.kind]) hpush
      simpa using this

theorem keepFrom_onceOnly (calls : List Call) :
    onceOnly ((keepFrom [] calls).map Call.kind) := by
  rw [onceOnly_iff]
  intro k hk
  simpa using keepFrom_count [] calls k hk (by simp)

theorem ofCalls_arranging_count (pre : List Call) (k : Kind) :
    (ofCalls pre).arranging.count k.label = (pre.map Call.kind).count k := by
  have h : (ofCalls pre).arranging = (pre.map Call.kind).map Kind.label := by
    simp [ofCalls]
  rw [h, List.count_map_of_injective _ _ Kind.label_injective]

theorem length_filter_kind (pre : List Call) (k : Kind) :
    ((pre.filter (fun c => c.kind = k)).map Call.token).length = (pre.map Call.kind).count k := by
  induction pre with
  | nil => rfl
  | cons c cs ih =>
    by_cases h : c.kind = k
    · simp only [List.length_map] at ih
      simp [List.filter_cons, h, ih]
    · simp only [List.length_map] at ih
      simp [List.filter_cons, h, ih, List.count_cons]

/-- C13. In every builder state reached from a fresh builder by fragment calls, returned or
thrown, `arranging` holds at most one `'element'`, at most one `'id'` and at most one
`'pseudoElement'` entry, the three guard arrays hold at most one fragment each, and `selector`
is the list of the tokens of calls among which element, id and pseudo-element occur at most once
each. -/
theorem once_only_kinds_invariant (calls : List Call) :
    ((MySuperBaseElementSelector.new.runCalls calls).arranging.count "element" ≤ 1
        ∧ (MySuperBaseElementSelector.new.runCalls calls).arranging.count "id" ≤ 1
        ∧ (MySuperBaseElementSelector.new.runCalls calls).arranging.count "pseudoElement" ≤ 1)
      ∧ ((MySuperBaseElementSelector.new.runCalls calls).elements.length ≤ 1
        ∧ (MySuperBaseElementSelector.new.runCalls calls).ids.length ≤ 1
        ∧ (MySuperBaseElementSelector.new.runCalls calls).pseudoElements.length ≤ 1)
      ∧ ∃ pushed : List Call,
          (MySuperBaseElementSelector.new.runCalls calls).selector = pushed.map Call.token
            ∧ (MySuperBaseElementSelector.new.runCalls calls).arranging
                = pushed.map (fun c => c.kind.label)
            ∧ onceOnly (pushed.map Call.kind) := by
  rw [runCalls_new]
  have ho := keepFrom_onceOnly calls
  refine ⟨?_, ?_, keepFrom [] calls, rfl, rfl, ho⟩
  · exact ⟨(ofCalls_arranging_count _ Kind.element).trans_le ho.1,
      (ofCalls_arranging_count _ Kind.id).trans_le ho.2.1,
      (ofCalls_arranging_count _ Kind.pseudoElement).trans_le ho.2.2⟩
  · exact ⟨(length_filter_kind _ Kind.element).trans_le ho.1,
      (length_filter_kind _ Kind.id).trans_le ho.2.1,
      (length_filter_kind _ Kind.pseudoElement).trans_le ho.2.2⟩

/-- C14. In every builder state reached from a fresh builder by fragment calls, returned or
thrown, `selector` and `arranging` have the same length, and they are the tokens and the kind
labels of one and the same subsequence of the calls made: at every index the entry of
`arranging` is the kind of the call whose token is the entry of `selector`. -/
theorem selector_arranging_parallel (calls : List Call) :
    (MySuperBaseElementSelector.new.runCalls calls).selector.length
        = (MySuperBaseElementSelector.new.runCalls calls).arranging.length
      ∧ ∃ pushed : List Call,
          pushed.Sublist calls
            ∧ (MySuperBaseElementSelector.new.runCalls calls).selector = pushed.map Call.token
            ∧ (MySuperBaseElementSelector.new.runCalls calls).arranging
                = pushed.map (fun c => c.kind.label)
            ∧ ∀ i : Nat,
                (MySuperBaseElementSelector.new.runCalls calls).selector[i]?
                    = pushed[i]?.map Call.token
                  ∧ (MySuperBaseElementSelector.new.runCalls calls).arranging[i]?
                    = pushed[i]?.map (fun c => c.kind.label) := by
  rw [runCalls_new]
  refine ⟨by simp [ofCalls], keepFrom [] calls, keepFrom_sublist [] calls, rfl, rfl, ?_⟩
  intro i
  simp [ofCalls, List.getElem?_map]

/-! ## C15 -/

theorem sameRecord_refl (s : MySuperBaseElementSelector) : sameRecord s s :=
  ⟨rfl, rfl, rfl, rfl⟩

theorem sameRecord_combine (s t a b : MySuperBaseElementSelector) (c : String)
    (h : sameRecord s t) : sameRecord (s.combine a c b) t := h

/-- The error a fragment method throws, and the record it leaves, depend on the record only. -/
theorem sameRecord_call (s t : MySuperBaseElementSelector) (c : Call) (h : sameRecord s t) :
    (s.call c).thrown = (t.call c).thrown ∧ sameRecord (s.call c).state (t.call c).state := by
  obtain ⟨ssel, se, si, sp, sa⟩ := s
  obtain ⟨tsel, te, ti, tp, ta⟩ := t
  obtain ⟨h1, h2, h3, h4⟩ := h
  simp only at h1 h2 h3 h4
  subst h1 h2 h3 h4
  obtain ⟨k, v⟩ := c
  cases k <;>
  simp only [MySuperBaseElementSelector.call, MySuperBaseElementSelector.element,
    MySuperBaseElementSelector.id, MySuperBaseElementSelector.class_,
    MySuperBaseElementSelector.attr, MySuperBaseElementSelector.pseudoClass,
    MySuperBaseElementSelector.pseudoElement, sameRecord] <;>
  split_ifs <;> simp

theorem sameRecord_runSteps (s t : MySuperBaseElementSelector) (steps : List Step)
    (h : sameRecord s t) : sameRecord (runSteps s steps) (t.runCalls (fragmentCalls steps)) := by
  induction steps generalizing s t with
  | nil => exact h
  | cons st rest ih =>
    cases st with
    | fragment c =>
      rw [runSteps, fragmentCalls, MySuperBaseElementSelector.runCalls]
      exact ih _ _ (sameRecord_call s t c h).2
    | combine a comb b =>
      rw [runSteps, fragmentCalls]
      exact ih _ _ (sameRecord_combine s t a b comb h)

theorem thrown_pseudoElement_ofCalls (pre : List Call) (value : String) :
    (((ofCalls pre).call ⟨Kind.pseudoElement, value⟩).thrown = some duplicateMessage
        ∧ Kind.pseudoElement ∈ pre.map Call.kind)
      ∨ (((ofCalls pre).call ⟨Kind.pseudoElement, value⟩).thrown = none
        ∧ Kind.pseudoElement ∉ pre.map Call.kind) := by
  by_cases hd : Kind.pseudoElement ∈ pre.map Call.kind
  · exact Or.inl ⟨(thrown_duplicate_ofCalls pre ⟨Kind.pseudoElement, value⟩).mpr ⟨rfl, hd⟩, hd⟩
  · refine Or.inr ⟨?_, hd⟩
    have hnd : ¬ ((Call.mk Kind.pseudoElement value).kind.single = true
        ∧ (Call.mk Kind.pseudoElement value).kind ∈ pre.map Call.kind) := fun h => hd h.2
    rw [call_ofCalls, if_neg hnd]
    simp only
    rw [if_pos]
    cases hl : pre.getLast?.map Call.kind with
    | none => rfl
    | some p =>
      have hp : p ∈ pre.map Call.kind := by
        rw [← List.getLast?_map] at hl
        exact List.mem_of_getLast?_eq_some hl
      have hne : p ≠ Kind.pseudoElement := fun h => hd (h ▸ hp)
      revert hne
      cases p <;> simp [accepts, allowedBefore]

/-- C15, the claim fails: whether `pseudoElement` throws the duplicate error does not follow the
pseudo-element fragments that the builder holds. After `combine(pseudoElement('x'), '+',
element('a'))` on a fresh builder, `selector` holds the fragment `::x` and `pseudoElement('y')`
returns; after `pseudoElement('x')` and then `combine(element('a'), '+', element('b'))` on the
same builder, `selector` holds no pseudo-element fragment and `pseudoElement('y')` throws the
duplicate error. -/
theorem pseudoElement_duplicate_not_by_fragment :
    ("::x" ∈ (runSteps MySuperBaseElementSelector.new
          [Step.combine (cssSelectorBuilder.pseudoElement "x").state "+"
            (cssSelectorBuilder.element "a").state]).selector
        ∧ ((runSteps MySuperBaseElementSelector.new
          [Step.combine (cssSelectorBuilder.pseudoElement "x").state "+"
            (cssSelectorBuilder.element "a").state]).pseudoElement "y").thrown = none)
      ∧ ((runSteps MySuperBaseElementSelector.new
          [Step.fragment ⟨Kind.pseudoElement, "x"⟩,
            Step.combine (cssSelectorBuilder.element "a").state "+"
              (cssSelectorBuilder.element "b").state]).selector = ["a", " ", "+", " ", "b"]
        ∧ ((runSteps MySuperBaseElementSelector.new
          [Step.fragment ⟨Kind.pseudoElement, "x"⟩,
            Step.combine (cssSelectorBuilder.element "a").state "+"
              (cssSelectorBuilder.element "b").state]).pseudoElement "y").thrown
          = some duplicateMessage) := by
  decide

/-- C15, amended. In every builder state reached from a fresh builder by fragment calls and
`combine` calls, `pseudoElement(value)` never throws the ordering error: it throws the duplicate
error exactly when `pseudoElements` is not empty, which is the case exactly when an earlier
`pseudoElement` call was made on this builder (whatever fragments `selector` holds), and it
returns otherwise. -/
theorem pseudoElement_never_order (steps : List Step) (value : String) :
    ((runSteps MySuperBaseElementSelector.new steps).pseudoElement value).thrown
        ≠ some orderMessage
      ∧ (((runSteps MySuperBaseElementSelector.new steps).pseudoElement value).thrown
            = some duplicateMessage
          ↔ (runSteps MySuperBaseElementSelector.new steps).pseudoElements ≠ [])
      ∧ ((runSteps MySuperBaseElementSelector.new steps).pseudoElements ≠ []
          ↔ Kind.pseudoElement ∈ (fragmentCalls steps).map Call.kind)
      ∧ (((runSteps MySuperBaseElementSelector.new steps).pseudoElement value).thrown
            = some duplicateMessage
          ∨ ((runSteps MySuperBaseElementSelector.new steps).pseudoElement value).thrown
            = none) := by
  have hrec := sameRecord_runSteps _ _ steps (sameRecord_refl MySuperBaseElementSelector.new)
  rw [runCalls_new] at hrec
  have hcall := (sameRecord_call _ _ ⟨Kind.pseudoElement, value⟩ hrec).1
  have hthrown : ((runSteps MySuperBaseElementSelector.new steps).pseudoElement value).thrown
      = ((ofCalls (keepFrom [] (fragmentCalls steps))).call ⟨Kind.pseudoElement, value⟩).thrown :=
    hcall
  have hmem : Kind.pseudoElement ∈ (keepFrom [] (fragmentCalls steps)).map Call.kind
      ↔ Kind.pseudoElement ∈ (fragmentCalls steps).map Call.kind := by
    simpa using mem_keepFrom [] (fragmentCalls steps) Kind.pseudoElement
  have hfield : (runSteps MySuperBaseElementSelector.new steps).pseudoElements ≠ []
      ↔ Kind.pseudoElement ∈ (keepFrom [] (fragmentCalls steps)).map Call.kind := by
    rw [hrec.2.2.1, ne_eq, ← List.length_eq_zero, ofCalls_pseudoElements_length, not_not]
  have hdo : duplicateMessage ≠ orderMessage := by decide
  rw [hthrown]
  rcases thrown_pseudoElement_ofCalls (keepFrom [] (fragmentCalls steps)) value with
    ⟨ht, hin⟩ | ⟨ht, hout⟩
  · rw [ht]
    refine ⟨fun h => hdo (Option.some.inj h), ?_, hfield.trans hmem, Or.inl rfl⟩
    exact ⟨fun _ => hfield.mpr hin, fun _ => rfl⟩
  · rw [ht]
    refine ⟨by simp, ?_, hfield.trans hmem, Or.inr rfl⟩
    exact ⟨fun h => by simp at h, fun h => absurd (hfield.mp h) hout⟩

/-! ## C16 and C17 -/

theorem duplicateMessage_ne_orderMessage : duplicateMessage ≠ orderMessage := by decide

/-- C16. A fragment call that throws the duplicate error leaves the builder as it found it: for
every builder state, when `element`, `id` or `pseudoElement` throws the duplicate error, the five
fields are the same after the call as before, and so is the string `stringify()` returns. -/
theorem duplicate_error_atomic (self : MySuperBaseElementSelector) (c : Call)
    (h : (self.call c).thrown = some duplicateMessage) :
    (self.call c).state = self ∧ (self.call c).state.stringify.1 = self.stringify.1 := by
  have hdo := duplicateMessage_ne_orderMessage
  have key : (self.call c).state = self := by
    obtain ⟨k, v⟩ := c
    cases k <;>
    simp only [MySuperBaseElementSelector.call, MySuperBaseElementSelector.element,
      MySuperBaseElementSelector.id, MySuperBaseElementSelector.class_,
      MySuperBaseElementSelector.attr, MySuperBaseElementSelector.pseudoClass,
      MySuperBaseElementSelector.pseudoElement] at h ⊢ <;>
    split_ifs at h ⊢ <;>
    first
      | rfl
      | exact absurd (Option.some.inj h).symm hdo
  exact ⟨key, by rw [key]⟩

/-- After `element('a')`, a second `element('b')` throws the duplicate error and the builder
still renders `a`. -/
theorem duplicate_error_atomic_witness :
    ((MySuperBaseElementSelector.new.runCalls [⟨.element, "a"⟩]).call ⟨.element, "b"⟩).thrown
        = some duplicateMessage
      ∧ (((MySuperBaseElementSelector.new.runCalls [⟨.element, "a"⟩]).call
            ⟨.element, "b"⟩).state = MySuperBaseElementSelector.new.runCalls [⟨.element, "a"⟩]
        ∧ ((MySuperBaseElementSelector.new.runCalls [⟨.element, "a"⟩]).call
            ⟨.element, "b"⟩).state.stringify.1
          = (MySuperBaseElementSelector.new.runCalls [⟨.element, "a"⟩]).stringify.1) :=
  ⟨by decide, duplicate_error_atomic _ ⟨.element, "b"⟩ (by decide)⟩

/-- C17. A fragment call that throws the ordering error has pushed its fragment already: for
every builder state and every fragment call that throws the ordering error, the token of the
call is at the end of `selector` and its kind at the end of `arranging` after the call, so
`stringify()` then returns the string of before the call followed by the rejected token. -/
theorem order_error_not_atomic (self : MySuperBaseElementSelector) (c : Call)
    (h : (self.call c).thrown = some orderMessage) :
    (self.call c).state.selector = self.selector ++ [c.token]
      ∧ (self.call c).state.arranging = self.arranging ++ [c.kind.label]
      ∧ (self.call c).state.stringify.1 = self.stringify.1 ++ c.token := by
  have hdo := duplicateMessage_ne_orderMessage
  have key : (self.call c).state.selector = self.selector ++ [c.token]
      ∧ (self.call c).state.arranging = self.arranging ++ [c.kind.label] := by
    obtain ⟨k, v⟩ := c
    cases k <;>
    simp only [MySuperBaseElementSelector.call, MySuperBaseElementSelector.element,
      MySuperBaseElementSelector.id, MySuperBaseElementSelector.class_,
      MySuperBaseElementSelector.attr, MySuperBaseElementSelector.pseudoClass,
      MySuperBaseElementSelector.pseudoElement] at h ⊢ <;>
    split_ifs at h ⊢ <;>
    first
      | exact ⟨rfl, rfl⟩
      | exact absurd (Option.some.inj h) hdo
  refine ⟨key.1, key.2, ?_⟩
  simp only [MySuperBaseElementSelector.stringify, key.1, String.join_append_lists,
    String.join_one]

/-- After `class('a')`, the call `element('div')` throws the ordering error; the builder
then renders `.adiv`, and a later `element` call throws the duplicate error. -/
theorem order_error_not_atomic_witness :
    ((MySuperBaseElementSelector.new.runCalls [⟨.class_, "a"⟩]).call ⟨.element, "div"⟩).thrown
        = some orderMessage
      ∧ (((MySuperBaseElementSelector.new.runCalls [⟨.class_, "a"⟩]).call
              ⟨.element, "div"⟩).state.selector
            = (MySuperBaseElementSelector.new.runCalls [⟨.class_, "a"⟩]).selector
                ++ [(Call.mk Kind.element "div").token]
          ∧ ((MySuperBaseElementSelector.new.runCalls [⟨.class_, "a"⟩]).call
              ⟨.element, "div"⟩).state.arranging
            = (MySuperBaseElementSelector.new.runCalls [⟨.class_, "a"⟩]).arranging
                ++ [(Call.mk Kind.element "div").kind.label]
          ∧ ((MySuperBaseElementSelector.new.runCalls [⟨.class_, "a"⟩]).call
              ⟨.element, "div"⟩).state.stringify.1
            = (MySuperBaseElementSelector.new.runCalls [⟨.class_, "a"⟩]).stringify.1
                ++ (Call.mk Kind.element "div").token)
      ∧ (MySuperBaseElementSelector.new.runCalls
            [⟨.class_, "a"⟩, ⟨.element, "div"⟩]).stringify.1 = ".adiv"
      ∧ MySuperBaseElementSelector.new.outcomes
            [⟨.class_, "a"⟩, ⟨.element, "div"⟩, ⟨.element, "span"⟩]
          = [none, some orderMessage, some duplicateMessage] :=
  ⟨by decide, order_error_not_atomic _ ⟨.element, "div"⟩ (by decide), by decide, by decide⟩

/-! ## C18 -/

/-- C18. The entry `stringify()` of the facade, called on the facade, calls itself before
anything else and has no other path: whatever the bound on the depth of the calls, it has not
returned within it, so it never returns a string. -/
theorem facade_stringify_never_returns (fuel : Nat) : cssSelectorBuilder.stringify fuel = none := by
  induction fuel with
  | zero => rfl
  | succ n ih => rw [cssSelectorBuilder.stringify, ih]

/-! ## C11 and C12 -/

theorem JsObject.define_of_not_mem {V : Type} (obj : JsObject V) (key : String) (value : V)
    (h : key ∉ obj.props.map Prod.fst) :
    obj.define key value = { obj with props := obj.props ++ [(key, value)] } := by
  unfold JsObject.define
  rw [if_neg]
  simp only [List.any_eq_true, decide_eq_true_eq, not_exists, not_and]
  intro p hp hk
  exact h (List.mem_map.mpr ⟨p, hp, hk⟩)

theorem foldl_define {V : Type} (l : List (String × V)) (obj : JsObject V)
    (h : (obj.props.map Prod.fst ++ l.map Prod.fst).Nodup) :
    l.foldl (fun o p => o.define p.1 p.2) obj = { obj with props := obj.props ++ l } := by
  induction l generalizing obj with
  | nil => simp
  | cons p ps ih =>
    have hp : p.1 ∉ obj.props.map Prod.fst := by
      intro hmem
      rw [List.nodup_append] at h
      exact h.2.2 hmem (by simp)
    rw [List.foldl_cons, JsObject.define_of_not_mem obj p.1 p.2 hp, ih]
    · simp
    · simpa using h

theorem JSON.parse_of_nodup {V J : Type} (codec : ValueCodec V J) (text : JsonText J)
    (h : (text.map Prod.fst).Nodup) :
    JSON.parse codec text
      = { props := text.map (fun m => (m.1, codec.parseValue m.2)), toJSON := none } := by
  have := foldl_define (text.map (fun m => (m.1, codec.parseValue m.2))) (JsObject.create none)
    (by simpa [JsObject.create, Function.comp_def] using h)
  rw [List.foldl_map] at this
  simpa [JSON.parse, JsObject.create] using this

theorem enumerate_of_no_index {V : Type} (props : List (String × V))
    (h : ∀ p ∈ props, arrayIndex p.1 = none) : enumerate props = props := by
  unfold enumerate
  have h1 : props.filterMap (fun p => (arrayIndex p.1).map (fun i => (i, p))) = [] := by
    rw [List.filterMap_eq_nil_iff]
    intro p hp
    simp [h p hp]
  have h2 : props.filter (fun p => (arrayIndex p.1).isNone) = props := by
    rw [List.filter_eq_self]
    intro p hp
    simp [h p hp]
  rw [h1, h2]
  rfl

theorem fromJSON_of_nodup_no_index {V J : Type} (codec : ValueCodec V J)
    (constructor : List V → JsObject V) (json : JsonText J)
    (hd : (json.map Prod.fst).Nodup) (hi : ∀ m ∈ json, arrayIndex m.1 = none) :
    fromJSON codec constructor json = constructor (json.map (fun m => codec.parseValue m.2)) := by
  have hown : enumerate (JSON.parse codec json).props
      = json.map (fun m => (m.1, codec.parseValue m.2)) := by
    rw [JSON.parse_of_nodup codec json hd, enumerate_of_no_index]
    intro p hp
    simp only [List.mem_map] at hp
    obtain ⟨m, hm, rfl⟩ := hp
    exact hi m hm
  simp only [fromJSON, Object.values, hown, List.map_map, Function.comp_def]

/-- C12, the claim fails: for the text `{"1":10,"0":20}` the values reach the constructor in the
order of the array indices, not in textual order, so `fromJSON(Rectangle.prototype, ...)` is
`new Rectangle(20, 10)` and not `new Rectangle(10, 20)`; for the text `{"a":10,"a":20}`, with a
repeated key, it is `new Rectangle(20)`. -/
theorem fromJSON_not_textual_order :
    (fromJSON scalars Rectangle.construct [("1", .number 10), ("0", .number 20)]).props
        = (Rectangle.construct [.number 20, .number 10]).props
      ∧ (fromJSON scalars Rectangle.construct [("1", .number 10), ("0", .number 20)]).props
        ≠ (Rectangle.construct [.number 10, .number 20]).props
      ∧ (fromJSON scalars Rectangle.construct [("a", .number 10), ("a", .number 20)]).props
        = (Rectangle.construct [.number 20]).props
      ∧ (fromJSON scalars Rectangle.construct [("a", .number 10), ("a", .number 20)]).props
        ≠ (Rectangle.construct [.number 10, .number 20]).props := by
  decide

/-- C12, amended. For every constructor and every JSON object text whose keys are pairwise
distinct and none of which is an array index, `fromJSON(proto, json)` is
`new proto.constructor(v1, ..., vn)` for the values `v1, ..., vn` that `JSON.parse` builds for
the members in textual order, whatever the keys are and whatever kind of value the members
hold. -/
theorem fromJSON_positional {V J : Type} (codec : ValueCodec V J)
    (constructor : List V → JsObject V) (json : JsonText J)
    (hd : (json.map Prod.fst).Nodup) (hi : ∀ m ∈ json, arrayIndex m.1 = none) :
    fromJSON codec constructor json = constructor (json.map (fun m => codec.parseValue m.2)) :=
  fromJSON_of_nodup_no_index codec constructor json hd hi

/-- For the text `{"height":10,"width":20}`, `fromJSON(Rectangle.prototype, ...)` is
`new Rectangle(10, 20)`: a rectangle of width 10 and height 20. -/
theorem fromJSON_positional_witness :
    (List.map Prod.fst [("height", JsonValue.number 10), ("width", JsonValue.number 20)]).Nodup
      ∧ (∀ m ∈ [("height", JsonValue.number 10), ("width", JsonValue.number 20)],
          arrayIndex m.1 = none)
      ∧ fromJSON scalars Rectangle.construct [("height", .number 10), ("width", .number 20)]
        = Rectangle.construct
            (List.map (fun m => scalars.parseValue m.2)
              [("height", JsonValue.number 10), ("width", JsonValue.number 20)])
      ∧ (fromJSON scalars Rectangle.construct
          [("height", .number 10), ("width", .number 20)]).get "width" = some (.number 10)
      ∧ (fromJSON scalars Rectangle.construct
          [("height", .number 10), ("width", .number 20)]).get "height" = some (.number 20) :=
  ⟨by decide, by decide,
    fromJSON_positional scalars Rectangle.construct _ (by decide) (by decide),
    by decide, by decide⟩

theorem stringify_representable {V J : Type} (codec : ValueCodec V J) (ps : List (String × V))
    (hi : ∀ p ∈ ps, arrayIndex p.1 = none) (hr : ∀ p ∈ ps, representable codec p.2) :
    (JSON.stringify codec { props := ps, toJSON := none }).map
        (fun m => (m.1, codec.parseValue m.2)) = ps := by
  unfold JSON.stringify
  simp only
  rw [enumerate_of_no_index _ hi]
  clear hi
  induction ps with
  | nil => rfl
  | cons p ps ih =>
    obtain ⟨j, hj, hback⟩ := hr p (List.mem_cons_self p ps)
    have hps := ih (fun q hq => hr q (List.mem_cons_of_mem p hq))
    rw [List.filterMap_cons, hj]
    simp only [Option.map_some', List.map_cons, hps, hback]

theorem positionalFrom_eq {V J : Type} (codec : ValueCodec V J) (fields : List String)
    (obj : JsObject V) (values : List V)
    (hd : (obj.props.map Prod.fst ++ fields).Nodup) (hp : "__proto__" ∉ fields)
    (hl : fields.length ≤ values.length) :
    positionalFrom codec obj fields values
      = { obj with props := obj.props ++ fields.zip values } := by
  induction fields generalizing obj values with
  | nil => simp [positionalFrom]
  | cons f fs ih =>
    cases values with
    | nil => simp at hl
    | cons v vs =>
      have hf : f ∉ obj.props.map Prod.fst := by
        intro hmem
        rw [List.nodup_append] at hd
        exact hd.2.2 hmem (by simp)
      have hne : f ≠ "__proto__" := fun h => hp (by simp [h])
      rw [positionalFrom, JsObject.assign, if_neg hne, JsObject.define_of_not_mem obj f _ hf]
      rw [ih]
      · simp
      · simpa using hd
      · intro h; exact hp (List.mem_cons_of_mem f h)
      · simpa using hl

theorem zip_map_snd_zip {V : Type} (l₁ : List String) (l₂ : List V) :
    l₁.zip ((l₁.zip l₂).map Prod.snd) = l₁.zip l₂ := by
  induction l₁ generalizing l₂ with
  | nil => rfl
  | cons a as ih =>
    cases l₂ with
    | nil => rfl
    | cons b bs => simp [ih]

theorem positional_eq {V J : Type} (codec : ValueCodec V J)
    (toJSON : Option (List (String × V) → List (String × V))) (fields : List String)
    (values : List V) (hd : fields.Nodup) (hp : "__proto__" ∉ fields)
    (hl : fields.length ≤ values.length) :
    positional codec toJSON fields values = { props := fields.zip values, toJSON := toJSON } := by
  rw [positional, positionalFrom_eq codec fields (JsObject.create toJSON) values
    (by simpa [JsObject.create]) hp hl]
  simp [JsObject.create]

theorem Rectangle.construct_numbers (w h : Int) :
    Rectangle.construct [.number w, .number h]
      = { props := [("width", .number w), ("height", .number h),
            ("getArea", .func "getArea")], toJSON := none } := by
  simp [Rectangle.construct, JsObject.assign, JsObject.define, JsObject.create]

theorem Rectangle.getJSON_numbers (w h : Int) :
    JSON.stringify scalars (Rectangle.construct [.number w, .number h])
      = [("width", .number w), ("height", .number h)] := by
  rw [Rectangle.construct_numbers, JSON.stringify]
  simp only
  rw [enumerate_of_no_index]
  · simp [scalars, JsValue.toJson?]
  · intro p hp
    simp only [List.mem_cons, List.mem_singleton, List.not_mem_nil, or_false] at hp
    rcases hp with rfl | rfl | rfl <;> simp only <;> decide

/-- For `{ width: 10, height: 20 }` the function `getJSON` returns the text
`{"width":10,"height":20}`, the keys in creation order; and `JSON.parse` builds the double
`9007199254740992` for the number text `9007199254740993`. -/
theorem getJSON_creation_order :
    getJSON scalars { props := [("width", .number 10), ("height", .number 20)], toJSON := none }
        = [("width", .number 10), ("height", .number 20)]
      ∧ scalars.parseValue (.number 9007199254740993) = .number 9007199254740992 := by
  decide

/-- C11, the claim fails, each time for a constructor that stores its i-th argument in its i-th
field. With `function P(a, b) { this.b = a; this[0] = b; }` and `o = new P(1, 2)`, `getJSON(o)`
is `{"0":2,"b":1}` and `fromJSON(P.prototype, getJSON(o))` has 2 in its field `b`, where `o` has
1. With the field `x` declared twice, `o = new P(1, 2)` has 2 in `x` and the object that comes
back has `undefined`. With the fields `__proto__` and `x`, `o = new P(5, 6)` has 6 in `x` and the
object that comes back has `undefined`. With the fields `width` and `height` and a prototype
whose `toJSON` returns `{ height: this.height, width: this.width }`, `o = new P(10, 20)` has
10 in `width` and the object that comes back has 20. -/
theorem roundtrip_fails :
    (getJSON scalars (positional scalars none ["b", "0"] [.number 1, .number 2])
          = [("0", .number 2), ("b", .number 1)]
        ∧ (fromJSON scalars (positional scalars none ["b", "0"])
            (getJSON scalars (positional scalars none ["b", "0"] [.number 1, .number 2]))).get
              "b" = some (.number 2)
        ∧ (positional scalars none ["b", "0"] [.number 1, .number 2]).get "b"
          = some (.number 1))
      ∧ ((fromJSON scalars (positional scalars none ["x", "x"])
            (getJSON scalars (positional scalars none ["x", "x"] [.number 1, .number 2]))).get
              "x" = some .undefined
        ∧ (positional scalars none ["x", "x"] [.number 1, .number 2]).get "x"
          = some (.number 2))
      ∧ ((fromJSON scalars (positional scalars none ["__proto__", "x"])
            (getJSON scalars
              (positional scalars none ["__proto__", "x"] [.number 5, .number 6]))).get
              "x" = some .undefined
        ∧ (positional scalars none ["__proto__", "x"] [.number 5, .number 6]).get "x"
          = some (.number 6))
      ∧ ((fromJSON scalars (positional scalars (some List.reverse) ["width", "height"])
            (getJSON scalars (positional scalars (some List.reverse) ["width", "height"]
              [.number 10, .number 20]))).get "width" = some (.number 20)
        ∧ (positional scalars (some List.reverse) ["width", "height"]
            [.number 10, .number 20]).get "width" = some (.number 10)) := by
  decide

/-- C11, amended. `getJSON` followed by `fromJSON` is a round trip for the constructors that
store their i-th argument in their i-th declared field when the field names are pairwise
distinct, none of them is an array index, none is `__proto__`, and the prototype chain has no
`toJSON` method: for every object `o` that such a constructor builds from JSON-representable
values, of any kind, `fromJSON(proto, getJSON(o))` has the fields and the field values of `o`.
It is one for `Rectangle`: from `new Rectangle(w, h)`, for numbers `w` and `h` with an integer
value, it builds a rectangle of width `w` and height `h` again. -/
theorem getJSON_fromJSON_roundtrip :
    (∀ (V J : Type) (codec : ValueCodec V J) (fields : List String) (values : List V),
        fields.Nodup → (∀ f ∈ fields, arrayIndex f = none) → "__proto__" ∉ fields →
        fields.length ≤ values.length → (∀ v ∈ values, representable codec v) →
        fromJSON codec (positional codec none fields)
            (getJSON codec (positional codec none fields values))
          = positional codec none fields values)
      ∧ (∀ w h : Int, roundDouble w = some w → roundDouble h = some h →
          fromJSON scalars Rectangle.construct
              (getJSON scalars (Rectangle.construct [.number w, .number h]))
              = Rectangle.construct [.number w, .number h]
            ∧ (Rectangle.construct [.number w, .number h]).get "width"
              = some (.number (Rectangle.new w h).width)
            ∧ (Rectangle.construct [.number w, .number h]).get "height"
              = some (.number (Rectangle.new w h).height)) := by
  constructor
  · intro V J codec fields values hd hi hp hl hr
    have hfst : (fields.zip values).map Prod.fst = fields := List.map_fst_zip _ _ hl
    have hkeys : ∀ p ∈ fields.zip values, arrayIndex p.1 = none := by
      intro p hp
      exact hi p.1 (hfst ▸ List.mem_map_of_mem Prod.fst hp)
    have hvals : ∀ p ∈ fields.zip values, representable codec p.2 := by
      intro p hp
      exact hr p.2 (List.of_mem_zip (a := p.1) (b := p.2) hp).2
    have hstr := stringify_representable codec (fields.zip values) hkeys hvals
    have htextfst :
        (JSON.stringify codec { props := fields.zip values, toJSON := none }).map Prod.fst
          = fields := by
      have := congrArg (List.map Prod.fst) hstr
      rw [List.map_map, hfst] at this
      exact this
    rw [positional_eq codec none fields values hd hp hl, getJSON,
      fromJSON_of_nodup_no_index codec _ _ (by rw [htextfst]; exact hd)
        (fun m hm => hi m.1 (by rw [← htextfst]; exact List.mem_map_of_mem Prod.fst hm))]
    have hsnd :
        (JSON.stringify codec { props := fields.zip values, toJSON := none }).map
            (fun m => codec.parseValue m.2)
          = (fields.zip values).map Prod.snd := by
      have := congrArg (List.map Prod.snd) hstr
      rw [List.map_map] at this
      exact this
    rw [hsnd, positional_eq codec none fields _ hd hp (by simp; omega), zip_map_snd_zip]
  · intro w h hw hh
    have hobj := Rectangle.construct_numbers w h
    refine ⟨?_, ?_, ?_⟩
    · rw [getJSON, Rectangle.getJSON_numbers,
        fromJSON_of_nodup_no_index _ _ _ (by simp)
          (by
            intro m hm
            simp only [List.mem_cons, List.mem_singleton, List.not_mem_nil, or_false] at hm
            rcases hm with rfl | rfl <;> simp only <;> decide)]
      simp [scalars, JsonValue.toJs, hw, hh]
    · rw [hobj]; rfl
    · rw [hobj]; rfl

/-- The constructor with the fields `width` and `height`, called with 10 and 20, and
`new Rectangle(10, 20)`: the object comes back from `fromJSON(proto, getJSON(o))`. -/
theorem getJSON_fromJSON_roundtrip_witness :
    fromJSON scalars (positional scalars none ["width", "height"])
          (getJSON scalars (positional scalars none ["width", "height"]
            [.number 10, .number 20]))
        = positional scalars none ["width", "height"] [.number 10, .number 20]
      ∧ (roundDouble 10 = some 10 ∧ roundDouble 20 = some 20)
      ∧ fromJSON scalars Rectangle.construct
          (getJSON scalars (Rectangle.construct [.number 10, .number 20]))
        = Rectangle.construct [.number 10, .number 20] :=
  ⟨getJSON_fromJSON_roundtrip.1 JsValue JsonValue scalars ["width", "height"]
      [.number 10, .number 20] (by decide) (by decide) (by decide) (by decide)
      (by
        intro v hv
        simp only [List.mem_cons, List.mem_singleton, List.not_mem_nil, or_false] at hv
        rcases hv with rfl | rfl
        · exact ⟨.number 10, rfl, by decide⟩
        · exact ⟨.number 20, rfl, by decide⟩),
    ⟨by decide, by decide⟩,
    (getJSON_fromJSON_roundtrip.2 10 20 (by decide) (by decide)).1⟩
